import Mathlib

/-!
Verification of the KSolve Klondike solver core against its specification.

The definitions below are a shallow embedding of the C++ sources
(`Game.hpp`, `Game.cpp`, `GameStateMemory.cpp`, `KSolveAStar.cpp`,
`MoveStorage.hpp`).  Machine integers are modelled as `Nat`/`Int` with
explicit reduction modulo 2^8/2^32/2^64 exactly where the C++ types
(`unsigned char`, `uint32_t`, `uint64_t`) can wrap.  Piles hold their
cards bottom-first, so the C++ `back()` (the top of a pile) is the last
list element.
-/

namespace KSolveNames

/-- One playing card.  The C++ `Card` packs `suit : 4 bits` and
`rank : 4 bits` into one byte; a default-constructed card holds the
out-of-range marker values suit = 4 (Hearts+1) and rank = 13 (King+1). -/
structure Card where
  suit : Nat
  rank : Nat
deriving DecidableEq, Repr

instance : Inhabited Card := ⟨⟨4, 13⟩⟩

/-- Card from a deck value 0..51: `suit = value/13`, `rank = value%13`. -/
def Card.ofValue (v : Nat) : Card := ⟨v / 13, v % 13⟩

/-- `Card::IsMajor`: `_suit >> 1` (hearts or spades give 1). -/
def Card.isMajor (c : Card) : Nat := c.suit >>> 1

/-- `Card::OddRed`: `(_rank & 1) ^ (_suit & 1)`. -/
def Card.oddRed (c : Card) : Nat := (c.rank &&& 1) ^^^ (c.suit &&& 1)

/-- `Card::Value`: `13 * _suit + _rank`. -/
def Card.value (c : Card) : Nat := 13 * c.suit + c.rank

/-- `Card::Covers`: `_rank+1 == c._rank & OddRed() == c.OddRed()` --
can this card be moved onto `c` on a tableau pile? -/
def Card.covers (a c : Card) : Bool := (a.rank + 1 == c.rank) && (a.oddRed == c.oddRed)

/-- The claim C6 reading of the covering rule, for comparison with the
source definition `Card.covers`: rank one less and the two parity bits
`oddRed` have OPPOSITE parity. -/
def coversClaimC6 (a c : Card) : Bool := (a.rank + 1 == c.rank) && (a.oddRed != c.oddRed)

/-- The outcome codes returned by `KSolveAStar`. -/
inductive KSolveAStarCode where
  | SolvedMinimal
  | Solved
  | Impossible
  | GaveUp
deriving DecidableEq, Repr

/-- `SharedMoveStorage::OverLimit`: `_moveTree.size() > _moveTreeSizeLimit`. -/
def overLimit (moveTreeSize moveTreeSizeLimit : Nat) : Bool :=
  moveTreeSizeLimit < moveTreeSize

/-- Outcome classification at the end of `KSolveAStar` (KSolveAStar.cpp):
if the solution move list is non-empty the outcome is `Solved` when over
the limit and `SolvedMinimal` otherwise; if it is empty the outcome is
`GaveUp` when over the limit and `Impossible` otherwise. -/
def solverOutcome (solutionMovesSize moveTreeSize moveTreeSizeLimit : Nat) : KSolveAStarCode :=
  if solutionMovesSize ≠ 0 then
    if overLimit moveTreeSize moveTreeSizeLimit then .Solved else .SolvedMinimal
  else
    if overLimit moveTreeSize moveTreeSizeLimit then .GaveUp else .Impossible

/-- Addition on an `unsigned char` field: promote to `int`, add, and
truncate back modulo 2^8 (used for `Pile::IncrUpCount`,
`Game::_recycleCount` and `Game::_kingSpaces` updates). -/
def ucAdd (u : Nat) (c : Int) : Nat := (((u : Int) + c) % 256).toNat

/-- A pile of cards with its face-up count.  Cards are stored
bottom-first: the C++ `back()` (top of the pile) is the last element.
The C++ `Pile` also caches its code and tableau/foundation flags; in
this embedding a pile's position in the `Game` determines those. -/
structure Pile where
  cards : List Card
  upCount : Nat
deriving DecidableEq, Repr

instance : Inhabited Pile := ⟨⟨[], 0⟩⟩

/-- `Pile::size`. -/
def Pile.size (p : Pile) : Nat := p.cards.length

/-- `Pile::back` -- the top card of the pile (unspecified if empty;
the C++ default card stands in for the out-of-bounds read). -/
def Pile.back (p : Pile) : Card := p.cards.getLastD default

/-- `Pile::Top` -- `*(end() - _upCount)`, the bottom face-up card. -/
def Pile.top (p : Pile) : Card := p.cards.getD (p.cards.length - p.upCount) default

/-- One step of `Pile::Draw(Pile& from)`: `push_back(from.back());
from.pop_back();`.  Returns (destination, source) after the step. -/
def drawOne (dst src : Pile) : Pile × Pile :=
  ({ dst with cards := dst.cards ++ [src.back] },
   { src with cards := src.cards.dropLast })

/-- `n` repetitions of `drawOne` (the n >= 0 branch of
`Pile::Draw(Pile& other, int n)`); moves the last `n` cards of `src`
onto `dst`, reversing their order. -/
def drawMany (dst src : Pile) : Nat → Pile × Pile
  | 0 => (dst, src)
  | n + 1 =>
    let p := drawOne dst src
    drawMany p.1 p.2 n

/-- `Pile::Draw(Pile& other, int n)`: if `n < 0`, move the last `-n`
cards of `self` onto `other` (reversing); otherwise move the last `n`
cards of `other` onto `self` (reversing).  Returns (self, other). -/
def Pile.drawInt (self other : Pile) (n : Int) : Pile × Pile :=
  if n < 0 then
    let p := drawMany other self (-n).toNat
    (p.2, p.1)
  else
    let p := drawMany self other n.toNat
    (p.1, p.2)

/-- `IsTableau` on a pile code: `TableauBase <= pile < TableauBase+7`. -/
def isTableauCode (i : Nat) : Bool := 1 ≤ i && i < 1 + 7

/-- `Pile::IsFoundation` flag: `FoundationBase <= code < FoundationBase+4`. -/
def isFoundationCode (i : Nat) : Bool := 9 ≤ i && i < 9 + 4

/-- Directions for a move (C++ `MoveSpec`, 4 bytes).  The C++ union
overlays `{_cardsToMove:4, _fromUpCount:4}` with `_drawCount`; here the
variants get separate fields, each read only for its own variant
(`_from == Stock` selects the stock variant). -/
structure MoveSpec where
  fromP : Nat
  toP : Nat
  flipsTopCard : Bool
  nMoves : Nat
  ladderSuit : Nat
  recycle : Bool
  cardsToMove : Nat
  fromUpCount : Nat
  drawCount : Int
deriving DecidableEq, Repr

/-- The C++ default `MoveSpec`: `_from = _to = PileCount` (13). -/
instance : Inhabited MoveSpec := ⟨⟨13, 13, false, 0, 0, false, 0, 0, 0⟩⟩

/-- `StockMove(to, nMoves, draw, recycle)`. -/
def StockMove (toC nMoves : Nat) (draw : Int) (recycle : Bool) : MoveSpec :=
  ⟨8, toC, false, nMoves, 0, recycle, 0, 0, draw⟩

/-- `NonStockMove(from, to, n, fromUpCount)`. -/
def NonStockMove (fromP toC n fromUpCount : Nat) : MoveSpec :=
  ⟨fromP, toC, false, 1, 0, false, n, fromUpCount, 0⟩

/-- `LadderMove(from, to, n, fromUpCount, ladderCard)`. -/
def LadderMove (fromP toC n fromUpCount : Nat) (ladderCard : Card) : MoveSpec :=
  { NonStockMove fromP toC n fromUpCount with nMoves := 2, ladderSuit := ladderCard.suit }

/-- `MoveSpec::IsStockMove`: `_from == Stock` (pile code 8). -/
def MoveSpec.isStockMove (mv : MoveSpec) : Bool := mv.fromP == 8

/-- `MoveSpec::NCards`: 1 for a stock move, else `_cardsToMove`. -/
def MoveSpec.nCards (mv : MoveSpec) : Nat := if mv.fromP == 8 then 1 else mv.cardsToMove

/-- `MoveSpec::IsLadderMove`: `IsTableau(_from) && _nMoves == 2`. -/
def MoveSpec.isLadderMove (mv : MoveSpec) : Bool := isTableauCode mv.fromP && mv.nMoves == 2

/-- `MoveSpec::LadderPileCode`: `_ladderSuit + FoundationBase`. -/
def MoveSpec.ladderPileCode (mv : MoveSpec) : Nat := mv.ladderSuit + 9

/-- The game: waste, seven tableau piles, stock, four foundation piles,
plus the draw setting, recycle limit/count, king-space counter and the
original deck.  The three counters are `unsigned char` in C++. -/
structure Game where
  waste : Pile
  tableau : List Pile
  stock : Pile
  foundation : List Pile
  drawSetting : Nat
  recycleLimit : Nat
  recycleCount : Nat
  kingSpaces : Nat
  deck : List Card
deriving DecidableEq, Repr

/-- `AllPiles()[i]` -- pile read by code: 0 waste, 1..7 tableau,
8 stock, 9..12 foundation. -/
def Game.getPile (g : Game) (i : Nat) : Pile :=
  if i = 0 then g.waste
  else if i ≤ 7 then g.tableau.getD (i - 1) default
  else if i = 8 then g.stock
  else g.foundation.getD (i - 9) default

/-- Write back a pile by code. -/
def Game.setPile (g : Game) (i : Nat) (p : Pile) : Game :=
  if i = 0 then { g with waste := p }
  else if i ≤ 7 then { g with tableau := g.tableau.set (i - 1) p }
  else if i = 8 then { g with stock := p }
  else { g with foundation := g.foundation.set (i - 9) p }

/-- `Game::CanMoveToFoundation`: `cd.Rank() == Foundation()[cd.Suit()].size()`. -/
def Game.canMoveToFoundation (g : Game) (cd : Card) : Bool :=
  cd.rank == (g.foundation.getD cd.suit default).cards.length

/-- `Game::GameOver`: all four foundation piles hold 13 cards. -/
def Game.gameOver (g : Game) : Bool :=
  g.foundation.all fun p => p.cards.length == 13

/-- `Game::MinFoundationPileSize`: the size of the shortest foundation
pile (`std::min_element` over the four piles). -/
def Game.minFoundationPileSize (g : Game) : Nat :=
  match g.foundation.map (fun p => p.cards.length) with
  | [] => 0
  | x :: xs => xs.foldl Nat.min x

/-- `Game::NeedKingSpace`: `_kingSpaces < SuitsPerDeck`. -/
def Game.needKingSpace (g : Game) : Bool := g.kingSpaces < 4

/-- One inner step of `Game::Deal`'s tableau loop:
`_tableau[icd].push_back(*iDeck++)`. -/
def dealRow (acc : List Pile × List Card) (icd : Nat) : List Pile × List Card :=
  match acc.2 with
  | [] => acc
  | c :: rest =>
    let p := acc.1.getD icd default
    (acc.1.set icd { p with cards := p.cards ++ [c] }, rest)

/-- One round of `Game::Deal`'s outer loop: deal one card to each of
the piles `iPile..6`, then turn up pile `iPile`'s top card and count a
king at its base into the king-space accumulator. -/
def dealStep (st : List Pile × List Card × Nat) (iPile : Nat) : List Pile × List Card × Nat :=
  let inner := (List.range' iPile (7 - iPile)).foldl dealRow (st.1, st.2.1)
  let p := inner.1.getD iPile default
  (inner.1.set iPile { p with upCount := 1 }, inner.2,
    st.2.2 + if (p.cards.getD 0 default).rank == 12 then 1 else 0)

/-- `Game::Deal`: clear all piles and the two counters, deal 28 cards
to the tableau, and assign the last 24 cards to the stock in reverse
order. -/
def Game.deal (g : Game) : Game :=
  let res := (List.range 7).foldl dealStep (List.replicate 7 default, g.deck, 0)
  { g with
    waste := default
    tableau := res.1
    stock := ⟨g.deck.reverse.take 24, 0⟩
    foundation := List.replicate 4 default
    recycleCount := 0
    kingSpaces := res.2.2 }

/-- The `Game` constructor: record the deck and settings, then `Deal()`.
The C++ recycle limit parameter is an `unsigned char` (255 means
effectively unlimited). -/
def Game.new (deck : List Card) (draw recycleLimit : Nat) : Game :=
  Game.deal
    { waste := default, tableau := List.replicate 7 default, stock := default,
      foundation := List.replicate 4 default, drawSetting := draw,
      recycleLimit := recycleLimit, recycleCount := 0, kingSpaces := 0, deck := deck }

/-- Assignment to the `_waste` member. -/
def Game.setWaste (g : Game) (p : Pile) : Game := { g with waste := p }

/-- Assignment to the `_stock` member. -/
def Game.setStock (g : Game) (p : Pile) : Game := { g with stock := p }

/-- Assignment to the `_recycleCount` member. -/
def Game.setRecycleCount (g : Game) (r : Nat) : Game := { g with recycleCount := r }

/-- Assignment to the `_kingSpaces` member. -/
def Game.setKingSpaces (g : Game) (k : Nat) : Game := { g with kingSpaces := k }

/-- `Game::MakeMove(MoveSpec)` (Game.cpp).  A stock move draws
`DrawCount()` cards from the stock to the waste (negative means
undraw), then moves the top waste card to the destination;  a non-stock
move takes the last `NCards()` cards of the from pile onto the to pile
(in order), for a ladder move additionally draws the newly exposed card
to the ladder foundation pile, then adjusts the up counts and, when the
from pile was emptied, the king-space counter. -/
def Game.makeMove (g : Game) (mv : MoveSpec) : Game :=
  if mv.isStockMove then
    let ws := g.waste.drawInt g.stock mv.drawCount
    let g := (g.setWaste ws.1).setStock ws.2
    let c := g.waste.back
    let g := g.setWaste { g.waste with cards := g.waste.cards.dropLast }
    let tp := g.getPile mv.toP
    let g := g.setPile mv.toP
      { tp with cards := tp.cards ++ [c], upCount := ucAdd tp.upCount 1 }
    g.setRecycleCount (ucAdd g.recycleCount (if mv.recycle then 1 else 0))
  else
    let n := mv.nCards
    let isLadder := mv.isLadderMove
    let fp := g.getPile mv.fromP
    let tp := g.getPile mv.toP
    let g := g.setPile mv.toP
      { tp with cards := tp.cards ++ fp.cards.drop (fp.cards.length - n) }
    let g := g.setPile mv.fromP { fp with cards := fp.cards.take (fp.cards.length - n) }
    let g :=
      if isLadder then
        let fp := g.getPile mv.fromP
        let lp := g.getPile mv.ladderPileCode
        let g := g.setPile mv.ladderPileCode { lp with cards := lp.cards ++ [fp.back] }
        g.setPile mv.fromP { fp with cards := fp.cards.dropLast }
      else g
    let tp := g.getPile mv.toP
    let g := g.setPile mv.toP { tp with upCount := ucAdd tp.upCount (n : Int) }
    let fp := g.getPile mv.fromP
    if fp.cards.length ≠ 0 then
      let delta : Int := (if mv.flipsTopCard then 1 else 0) - ((n : Int) + (if isLadder then 1 else 0))
      g.setPile mv.fromP { fp with upCount := ucAdd fp.upCount delta }
    else
      let g := g.setKingSpaces
        (ucAdd g.kingSpaces (if isTableauCode mv.fromP then 1 else 0))
      g.setPile mv.fromP { fp with upCount := 0 }

/-- `Game::UnMakeMove(MoveSpec)` (Game.cpp), the reversal of
`MakeMove`: a stock move is undone by pushing the destination's top
card back onto the waste and undrawing; a non-stock move first undoes
the ladder foundation draw (adjusting `_kingSpaces` when the from pile
is momentarily empty), then, for a tableau from pile, adjusts
`_kingSpaces` and restores the saved `FromUpCount()`, and finally moves
the cards back. -/
def Game.unMakeMove (g : Game) (mv : MoveSpec) : Game :=
  if mv.isStockMove then
    let tp := g.getPile mv.toP
    let c := tp.back
    let g := g.setPile mv.toP
      { tp with cards := tp.cards.dropLast, upCount := ucAdd tp.upCount (-1) }
    let g := g.setWaste { g.waste with cards := g.waste.cards ++ [c] }
    let sw := g.stock.drawInt g.waste mv.drawCount
    let g := (g.setStock sw.1).setWaste sw.2
    g.setRecycleCount (ucAdd g.recycleCount (if mv.recycle then -1 else 0))
  else
    let n := mv.nCards
    let g :=
      if mv.isLadderMove then
        let fp0 := g.getPile mv.fromP
        let g := g.setKingSpaces
          (ucAdd g.kingSpaces (if fp0.cards.isEmpty then -1 else 0))
        let lp := g.getPile mv.ladderPileCode
        let fp := g.getPile mv.fromP
        let g := g.setPile mv.fromP { fp with cards := fp.cards ++ [lp.back] }
        g.setPile mv.ladderPileCode { lp with cards := lp.cards.dropLast }
      else g
    let g :=
      if isTableauCode mv.fromP then
        let fp := g.getPile mv.fromP
        let g := g.setKingSpaces
          (ucAdd g.kingSpaces (if fp.cards.isEmpty then -1 else 0))
        g.setPile mv.fromP { fp with upCount := mv.fromUpCount }
      else g
    let fp := g.getPile mv.fromP
    let tp := g.getPile mv.toP
    let g := g.setPile mv.fromP
      { fp with cards := fp.cards ++ tp.cards.drop (tp.cards.length - n) }
    g.setPile mv.toP
      { tp with cards := tp.cards.take (tp.cards.length - n),
                upCount := ucAdd tp.upCount (-(n : Int)) }

/-- The static validity check `Valid(game, from, to, nCardsToMove)`
(Game.cpp): pile codes in range, `1 <= n <= 24`, enough cards in the
from pile, and the moved block's bottom card fits the destination
(cover rule for a tableau, suit and next-rank rule for a foundation). -/
def validMove (g : Game) (fromP toC n : Nat) : Bool :=
  if 13 ≤ fromP then false
  else if 13 ≤ toC then false
  else if n == 0 || decide (24 < n) then false
  else
    let fp := g.getPile fromP
    let tp := g.getPile toC
    if decide (fp.cards.length < n) then false
    else
      let coverCard := fp.cards.getD (fp.cards.length - n) default
      if isTableauCode toC then
        if tp.cards.isEmpty then coverCard.rank == 12
        else coverCard.covers (tp.cards.getLastD default)
      else if isFoundationCode toC then
        (coverCard.suit == toC - 9) && (coverCard.rank == tp.cards.length)
      else true

/-- `Game::IsValid(MoveSpec)`: a stock move with positive draw is
checked as a move of `draw` cards from the stock; one with draw `d <= 0`
as a move of `-d + 1` cards from the waste. -/
def Game.isValid (g : Game) (mv : MoveSpec) : Bool :=
  if mv.isStockMove then
    if 0 < mv.drawCount then validMove g 8 mv.toP mv.drawCount.toNat
    else validMove g 0 mv.toP ((-mv.drawCount).toNat + 1)
  else validMove g mv.fromP mv.toP mv.nCards

/-- States reachable from `init` by making valid moves. -/
inductive Game.ReachableFrom (init : Game) : Game → Prop
  | base : Game.ReachableFrom init init
  | step (g : Game) (mv : MoveSpec) : Game.ReachableFrom init g →
      g.isValid mv = true → Game.ReachableFrom init (g.makeMove mv)

/-- The number of empty tableau columns of a game (the quantity claims
C1 and C8 speak about). -/
def Game.emptyTableauCount (g : Game) : Nat :=
  (g.tableau.filter fun p => p.cards.isEmpty).length

/-- The number of tableau columns whose bottom card is a king. -/
def Game.kingBottomCount (g : Game) : Nat :=
  (g.tableau.filter fun p => !p.cards.isEmpty && (p.cards.getD 0 default).rank == 12).length

/-- Structural soundness of a game representation: seven tableau piles,
four foundation piles, and every `unsigned char` counter within its
byte range (automatic in C++, explicit here). -/
def Game.WF (g : Game) : Prop :=
  g.tableau.length = 7 ∧ g.foundation.length = 4 ∧
  g.kingSpaces < 256 ∧ g.recycleCount < 256 ∧
  ∀ i, i < 13 → (g.getPile i).upCount < 256

/-- Conditions under which a stock `MoveSpec` is meaningful for a game:
a tableau or foundation destination and draw counts within the sizes of
the stock and waste piles, leaving the waste non-empty after the draw.
All stock moves produced by `AvailableMoves` satisfy them. -/
def StockPre (g : Game) (mv : MoveSpec) : Prop :=
  mv.toP ≠ 0 ∧ mv.toP ≠ 8 ∧ mv.toP < 13 ∧
  (0 ≤ mv.drawCount → mv.drawCount ≤ (g.stock.cards.length : Int)) ∧
  (mv.drawCount < 0 → -mv.drawCount ≤ (g.waste.cards.length : Int)) ∧
  1 ≤ (g.waste.cards.length : Int) + mv.drawCount

/-- Conditions under which a non-stock `MoveSpec` is meaningful for a
game: distinct in-range piles, at least one card moved, enough cards in
the from pile (one more for a ladder move), the recorded `FromUpCount`
agreeing with the from pile's up count when it is a tableau pile (the
assertion in `Game::MakeMove`), and for a ladder move a real suit whose
foundation pile is not the destination.  All non-stock moves produced
by `AvailableMoves` satisfy them. -/
def NonStockPre (g : Game) (mv : MoveSpec) : Prop :=
  mv.fromP < 13 ∧ mv.toP < 13 ∧ mv.fromP ≠ mv.toP ∧ mv.fromP ≠ 8 ∧
  1 ≤ mv.nCards ∧
  mv.nCards + (if mv.isLadderMove then 1 else 0) ≤ (g.getPile mv.fromP).cards.length ∧
  (isTableauCode mv.fromP = true → mv.fromUpCount = (g.getPile mv.fromP).upCount) ∧
  (mv.isLadderMove = true → mv.ladderSuit < 4 ∧ mv.ladderPileCode ≠ mv.toP)

/-- The precondition for make/unmake round trips, by move variant. -/
def MovePre (g : Game) (mv : MoveSpec) : Prop :=
  if mv.isStockMove then StockPre g mv else NonStockPre g mv

/-- `QuotientRoundedUp(numerator, denominator)`. -/
def QuotientRoundedUp (numerator denominator : Nat) : Nat :=
  (numerator + denominator - 1) / denominator

/-- The running state of `MisorderCount`'s scan: the least rank seen so
far for each suit (`minRanks`, initialised to 14). -/
def misorderAux (mins : Nat → Nat) : List Card → Nat
  | [] => 0
  | c :: rest =>
    if c.rank < mins c.suit then
      misorderAux (fun s => if s = c.suit then c.rank else mins s) rest
    else 1 + misorderAux mins rest

/-- `MisorderCount` (KSolveAStar.cpp): the number of cards that sit
above a card of the same suit with a rank no larger than theirs. -/
def MisorderCount (l : List Card) : Nat := misorderAux (fun _ => 14) l

/-- `MinimumMovesLeft` (KSolveAStar.cpp): the admissible lower bound on
the number of moves still needed -- every talon card, the obligatory
stock draws, the waste misorder count when drawing one at a time, and
for each occupied tableau pile its size plus the misorder count over
its face-down cards and the first face-up card. -/
def MinimumMovesLeft (game : Game) : Nat :=
  let draw := game.drawSetting
  let talonCount := game.waste.cards.length + game.stock.cards.length
  let result := talonCount + QuotientRoundedUp game.stock.cards.length draw
  let result := if draw == 1 then result + MisorderCount game.waste.cards else result
  result + game.tableau.foldl (fun acc tPile =>
    if tPile.cards.length ≠ 0 then
      let downCount := tPile.cards.length - tPile.upCount
      acc + tPile.cards.length + MisorderCount (tPile.cards.take (downCount + 1))
    else acc) 0

/-- `Game::DominantAvailableMoves` (Game.cpp): for the waste and each
tableau pile whose top card can go to a foundation pile within one of
the minimum foundation height, one single-card move to that foundation;
under draw-1, the same for the top of the stock as a 2-move stock
move. -/
def Game.dominantAvailableMoves (g : Game) (minFoundationSize : Nat) : List MoveSpec :=
  let pileMoves := (List.range 8).foldl (fun acc i =>
    let pile := g.getPile i
    if pile.cards.length ≠ 0 then
      let card := pile.back
      if card.rank ≤ minFoundationSize + 1 && g.canMoveToFoundation card then
        let toPile := 9 + card.suit
        let up := if i = 0 then 0 else pile.upCount
        acc ++ [{ NonStockMove i toPile 1 up with
                  flipsTopCard := isTableauCode i && up == 1 && decide (1 < pile.cards.length) }]
      else acc
    else acc) []
  if g.drawSetting == 1 && g.stock.cards.length ≠ 0 then
    let card := g.stock.back
    if card.rank ≤ minFoundationSize + 1 && g.canMoveToFoundation card then
      pileMoves ++ [StockMove (9 + card.suit) 2 1 false]
    else pileMoves
  else pileMoves

/-- The moves generated by `Game::MovesFromTableau` for one from pile:
a foundation move for its top card if possible, then for each other
tableau pile either a whole-face-up-run move (to flip a card or clear a
needed column, or a king to an empty column) or a ladder move exposing
a foundation-ready card. -/
def Game.tableauPairMoves (g : Game) (fromIdx : Nat) : List MoveSpec :=
  let fromPile := g.tableau.getD fromIdx default
  if fromPile.cards.isEmpty then []
  else
    let fromTip := fromPile.back
    let fromBase := fromPile.top
    let upCount := fromPile.upCount
    let fndMoves :=
      if g.canMoveToFoundation fromTip then
        [{ NonStockMove (fromIdx + 1) (9 + fromTip.suit) 1 upCount with
           flipsTopCard := upCount == 1 && decide (1 < fromPile.cards.length) }]
      else []
    ((List.range 7).foldl (fun (st : List MoveSpec × Bool) toIdx =>
      if toIdx = fromIdx then st
      else
        let toPile := g.tableau.getD toIdx default
        if toPile.cards.isEmpty then
          if !st.2 && fromBase.rank == 12 && decide (upCount < fromPile.cards.length) then
            (st.1 ++ [{ NonStockMove (fromIdx + 1) (toIdx + 1) upCount upCount with
                        flipsTopCard := true }], true)
          else st
        else
          let cardToCover := toPile.back
          let toRank := cardToCover.rank
          if fromTip.rank < toRank && toRank ≤ fromBase.rank + 1
              && fromTip.oddRed == cardToCover.oddRed then
            let moveCount := toRank - fromTip.rank
            if moveCount == upCount
                && (decide (upCount < fromPile.cards.length) || g.needKingSpace) then
              (st.1 ++ [{ NonStockMove (fromIdx + 1) (toIdx + 1) upCount upCount with
                          flipsTopCard := decide (upCount < fromPile.cards.length) }], st.2)
            else if decide (moveCount < upCount) || decide (upCount < fromPile.cards.length) then
              let uncovered := fromPile.cards.getD (fromPile.cards.length - moveCount - 1) default
              if g.canMoveToFoundation uncovered then
                (st.1 ++ [{ LadderMove (fromIdx + 1) (toIdx + 1) moveCount upCount uncovered with
                            flipsTopCard := upCount == moveCount + 1 }], st.2)
              else st
            else st
          else st) (fndMoves, false)).1

/-- `Game::MovesFromTableau` over all seven from piles. -/
def Game.movesFromTableau (g : Game) : List MoveSpec :=
  (List.range 7).foldl (fun acc i => acc ++ g.tableauPairMoves i) []

/-- One future playable talon card (C++ `TalonFuture`): the card, the
number of draw moves to reach it, the net draw count, and whether a
recycle happens on the way. -/
structure TalonFuture where
  card : Card
  nMoves : Nat
  drawCount : Int
  recycle : Bool
deriving DecidableEq, Repr

/-- `TalonSim::TopCard` at waste size `wSize`: the card at index
`wSize-1` of the real waste if `wSize` is within it, else the card
`wSize - waste.size` from the top of the real stock. -/
def talonTopCard (g : Game) (wSize : Nat) : Card :=
  if wSize ≤ g.waste.cards.length then g.waste.cards.getD (wSize - 1) default
  else g.stock.cards.getD (g.stock.cards.length - (wSize - g.waste.cards.length)) default

/-- The do-while loop of `TalonCards` (Game.cpp), with explicit fuel:
each round emits the current top of the simulated waste (when any),
then draws up to `drawSetting` cards or recycles, until the waste size
returns to its original value or the recycle allowance is spent. -/
def talonLoop (g : Game) (origW dr maxRec : Nat) :
    Nat → Nat → Nat → Nat → Nat → List TalonFuture
  | 0, _, _, _, _ => []
  | fuel + 1, wSize, sSize, nMoves, nRecycles =>
    let emitted : List TalonFuture :=
      if wSize ≠ 0 then
        [⟨talonTopCard g wSize, nMoves, (wSize : Int) - (origW : Int), decide (0 < nRecycles)⟩]
      else []
    let next : Nat × Nat × Nat × Nat :=
      if sSize ≠ 0 then (wSize + min dr sSize, sSize - min dr sSize, nMoves + 1, nRecycles)
      else (0, sSize + wSize, nMoves, nRecycles + 1)
    if next.1 ≠ origW && next.2.2.2 ≤ maxRec then
      emitted ++ talonLoop g origW dr maxRec fuel next.1 next.2.1 next.2.2.1 next.2.2.2
    else emitted

/-- `TalonCards(game)` (Game.cpp): all the cards that can be played
from the talon, with their move and draw counts.  `maxRecycles` is
`min(1, recycleLimit - recycleCount)` (the C++ subtraction is unsigned;
the solver never lets `recycleCount` exceed the limit, where the two
readings agree).  The loop always terminates within far fewer than 300
rounds (the talon holds at most 24 cards and at most two recycles are
simulated), so the fuel below never runs out. -/
def Game.talonCards (g : Game) : List TalonFuture :=
  if g.waste.cards.length + g.stock.cards.length == 0 then []
  else
    talonLoop g g.waste.cards.length g.drawSetting
      (min 1 (g.recycleLimit - g.recycleCount)) 300
      g.waste.cards.length g.stock.cards.length 0 0

/-- The inner tableau loop of `Game::MovesFromTalon` for one talon
card: a stock move onto each tableau pile whose top it covers, or onto
one empty pile when it is a king. -/
def Game.talonTableauMoves (g : Game) (tc : TalonFuture) : List MoveSpec :=
  ((List.range 7).foldl (fun (st : List MoveSpec × Bool) i =>
    if st.2 then st
    else
      let tPile := g.tableau.getD i default
      if 0 < tPile.cards.length then
        if tc.card.covers tPile.back then
          (st.1 ++ [StockMove (i + 1) (tc.nMoves + 1) tc.drawCount tc.recycle], st.2)
        else st
      else if tc.card.rank == 12 then
        (st.1 ++ [StockMove (i + 1) (tc.nMoves + 1) tc.drawCount tc.recycle], true)
      else st) ([], false)).1

/-- The outer loop of `Game::MovesFromTalon` over the talon futures:
foundation moves first for each card (stopping altogether under draw-1
once a near-minimum foundation move is found, skipping the tableau
moves for such a card under draw-k), then the tableau moves. -/
def movesFromTalonAux (g : Game) (minFnd : Nat) : List TalonFuture → List MoveSpec
  | [] => []
  | tc :: rest =>
    if g.canMoveToFoundation tc.card then
      let mv := StockMove (9 + tc.card.suit) (tc.nMoves + 1) tc.drawCount tc.recycle
      if tc.card.rank ≤ minFnd + 1 then
        if g.drawSetting == 1 then [mv]
        else mv :: movesFromTalonAux g minFnd rest
      else (mv :: g.talonTableauMoves tc) ++ movesFromTalonAux g minFnd rest
    else g.talonTableauMoves tc ++ movesFromTalonAux g minFnd rest

/-- `Game::MovesFromTalon`. -/
def Game.movesFromTalon (g : Game) (minFnd : Nat) : List MoveSpec :=
  movesFromTalonAux g minFnd g.talonCards

/-- `Game::MovesFromFoundation` for one foundation pile: skip unless
its height exceeds `minFoundationSize + 2`; otherwise move its top card
onto each tableau pile it covers, or onto one empty pile if a king. -/
def Game.foundationTableauMoves (g : Game) (minFnd fIdx : Nat) : List MoveSpec :=
  let fPile := g.foundation.getD fIdx default
  if fPile.cards.length ≤ minFnd + 2 then []
  else
    let top := fPile.back
    ((List.range 7).foldl (fun (st : List MoveSpec × Bool) i =>
      if st.2 then st
      else
        let tPile := g.tableau.getD i default
        if 0 < tPile.cards.length then
          if top.covers tPile.back then
            (st.1 ++ [NonStockMove (9 + fIdx) (i + 1) 1 0], st.2)
          else st
        else if top.rank == 12 then
          (st.1 ++ [NonStockMove (9 + fIdx) (i + 1) 1 0], true)
        else st) ([], false)).1

/-- `Game::MovesFromFoundation`. -/
def Game.movesFromFoundation (g : Game) (minFnd : Nat) : List MoveSpec :=
  (List.range 4).foldl (fun acc f => acc ++ g.foundationTableauMoves minFnd f) []

/-- `Game::NonDominantAvailableMoves`: tableau, then talon, then
foundation moves. -/
def Game.nonDominantAvailableMoves (g : Game) (minFoundationSize : Nat) : List MoveSpec :=
  g.movesFromTableau ++ g.movesFromTalon minFoundationSize
    ++ g.movesFromFoundation minFoundationSize

/-- The three-way answer of `XYZ_Test`. -/
inductive Dir where
  | returnTrue
  | returnFalse
  | keepLooking
deriving DecidableEq, Repr

/-- `XYZ_Test(prevMove, trialMove)` (Game.hpp): decide whether the
trial move `Y -> Z` repeats work an earlier move `X -> Y` could have
done directly. -/
def XYZ_Test (prevMove trialMove : MoveSpec) : Dir :=
  let y := trialMove.fromP
  let z := trialMove.toP
  if prevMove.toP = y then
    if prevMove.fromP = z && prevMove.flipsTopCard then .returnFalse
    else if prevMove.nCards == trialMove.nCards then .returnTrue else .returnFalse
  else if prevMove.toP = z || prevMove.fromP = z then .returnFalse
  else if prevMove.fromP = y then .returnFalse
  else .keepLooking

/-- `XYZ_Move(trialMove, movesMade)` (Game.hpp): scan the history
backwards; a ladder move is first tested as its implied foundation
move.  The argument list here is the history already reversed
(most recent first). -/
def XYZ_MoveRev (trialMove : MoveSpec) : List MoveSpec → Bool
  | [] => false
  | prevMove :: rest =>
    if prevMove.isLadderMove then
      let foundationMove :=
        { NonStockMove prevMove.fromP prevMove.ladderPileCode 1
            (prevMove.fromUpCount - prevMove.nCards) with
          flipsTopCard := prevMove.flipsTopCard }
      match XYZ_Test foundationMove trialMove with
      | .returnTrue => true
      | .returnFalse => false
      | .keepLooking =>
        match XYZ_Test { prevMove with flipsTopCard := false } trialMove with
        | .returnTrue => true
        | .returnFalse => false
        | .keepLooking => XYZ_MoveRev trialMove rest
    else
      match XYZ_Test prevMove trialMove with
      | .returnTrue => true
      | .returnFalse => false
      | .keepLooking => XYZ_MoveRev trialMove rest

/-- `XYZ_Move` on a forward history list: a trial move from the stock
or the waste pile is accepted without scanning the history. -/
def XYZ_Move (trialMove : MoveSpec) (movesMade : List MoveSpec) : Bool :=
  if trialMove.fromP == 8 || trialMove.fromP == 0 then false
  else XYZ_MoveRev trialMove movesMade.reverse

/-- `XYZ_Filter`: drop the moves rejected by `XYZ_Move`. -/
def XYZ_Filter (newMoves movesMade : List MoveSpec) : List MoveSpec :=
  newMoves.filter fun m => !XYZ_Move m movesMade

/-- `Game::AvailableMoves(movesMade)` (Game.hpp).  The C++ member keeps
a mutable cache of dominant moves (`_domMovesCache`); here the cache is
passed and returned explicitly.  When the game is won the empty list is
returned at once; otherwise dominant moves are handed out one at a
time from the cache (refilled and XYZ-filtered when empty), and only
when none exist are the filtered non-dominant moves returned. -/
def Game.availableMoves (g : Game) (movesMade domCache : List MoveSpec) :
    List MoveSpec × List MoveSpec :=
  let minFoundationSize := g.minFoundationPileSize
  if minFoundationSize == 13 then ([], domCache)
  else
    let cache :=
      if domCache.isEmpty then XYZ_Filter (g.dominantAvailableMoves minFoundationSize) movesMade
      else domCache
    if cache.length ≠ 0 then ([cache.getLastD default], cache.dropLast)
    else (XYZ_Filter (g.nonDominantAvailableMoves minFoundationSize) movesMade, cache)

/-- `DeflateTableau` (GameStateMemory.cpp): a 21-bit summary of a
tableau pile -- zero when no card is face up, else the bottom face-up
card's suit and rank, the major-suit bitmap of the face-up cards above
it, and the up count, packed in `uint32_t` arithmetic. -/
def DeflateTableau (cards : Pile) : Nat :=
  let upCount := cards.upCount
  if upCount ≠ 0 then
    let isMajor := (cards.cards.drop (cards.cards.length - upCount + 1)).foldl
      (fun acc card => (acc <<< 1 ||| card.isMajor) % 4294967296) 0
    let top := cards.top
    ((((top.suit <<< 4 ||| top.rank) <<< 11 ||| isMajor) <<< 4 ||| upCount) % 4294967296)
  else 0

/-- The canonical game state key.  Modelled from the spec: the missing
header `GameStateMemory.hpp` declares `GameState` as three 64-bit parts
plus a 16-bit move count that is not part of the equivalence key. -/
structure GameState where
  part0 : Nat
  part1 : Nat
  part2 : Nat
  moveCount : Nat
deriving DecidableEq, Repr

/-- `GameState::GameState(game, moveCount)` (GameStateMemory.cpp): the
seven deflated tableau words are sorted ascending, then packed with the
stock size and the four foundation sizes into the three 64-bit parts. -/
def GameState.ofGame (game : Game) (moveCount : Nat) : GameState :=
  let tableauState := (game.tableau.map DeflateTableau).insertionSort (· ≤ ·)
  let t := fun i => tableauState.getD i 0
  let fnd := fun i => (game.foundation.getD i default).cards.length
  { part0 := ((t 0 <<< 21 ||| t 1) <<< 21 ||| t 2) % 18446744073709551616
    part1 := ((t 3 <<< 21 ||| t 4) <<< 21 ||| t 5) % 18446744073709551616
    part2 := (((((t 6 <<< 5 ||| game.stock.cards.length) <<< 4 ||| fnd 0) <<< 4 ||| fnd 1)
                <<< 4 ||| fnd 2) <<< 4 ||| fnd 3) % 18446744073709551616
    moveCount := moveCount }

/-- Equality of canonical keys.  Modelled from the spec: the closed set
compares `GameState` values on the three parts only; `moveCount` is not
part of the equivalence key. -/
def GameState.keyEqb (a b : GameState) : Bool :=
  a.part0 == b.part0 && a.part1 == b.part1 && a.part2 == b.part2

/-- Two games that differ only by a permutation of the seven tableau
piles (the claim C4 equivalence). -/
def TableauPermEquiv (g1 g2 : Game) : Prop :=
  g1.tableau.Perm g2.tableau ∧ g1.waste = g2.waste ∧ g1.stock = g2.stock ∧
  g1.foundation = g2.foundation ∧ g1.drawSetting = g2.drawSetting ∧
  g1.recycleLimit = g2.recycleLimit ∧ g1.recycleCount = g2.recycleCount

/-- The contents of the closed set.  Modelled from the spec: the
`phmap` container behind `GameStateMemory` (not part of this
repository) is a hash set of `GameState` entries keyed on the three
parts; it is modelled as a list of entries with distinct keys. -/
def GameStateMemory := List GameState

/-- Update the first entry with the given key to the new move count. -/
def updateKey (k : GameState) (moveCount : Nat) : List GameState → List GameState
  | [] => []
  | s :: rest =>
    if GameState.keyEqb k s then { s with moveCount := moveCount } :: rest
    else s :: updateKey k moveCount rest

/-- `GameStateMemory::IsShortPathToState(game, moveCount)`
(GameStateMemory.cpp): build the canonical state; if its key is absent
insert it and answer true; if present and `moveCount` is smaller than
the stored count, overwrite and answer true; otherwise answer false
and leave the set unchanged. -/
def isShortPathToState (states : List GameState) (game : Game) (moveCount : Nat) :
    Bool × List GameState :=
  let newState := GameState.ofGame game moveCount
  match states.find? (GameState.keyEqb newState) with
  | none => (true, newState :: states)
  | some old =>
    if moveCount < old.moveCount then (true, updateKey newState moveCount states)
    else (false, states)

/-- Swap two positions of a list (`std::swap(deck[i], deck[j])`). -/
def listSwap (l : List Card) (i j : Nat) : List Card :=
  (l.set i (l.getD j default)).set j (l.getD i default)

/-- The swap loop of `Shuffle` (Game.cpp), runs `count` iterations
starting at position `i`; `draws k` is the value the PRNG draw for
iteration `k` yields.  Modelled from the spec: `std::mt19937` plus
`std::uniform_int_distribution` (not part of this repository, and the
distribution algorithm is implementation defined) are abstracted as the
deterministic stream `draws` of numbers in `[i, n-1]`. -/
def shuffleLoop (draws : Nat → Nat) : List Card → Nat → Nat → List Card
  | deck, _, 0 => deck
  | deck, i, count + 1 => shuffleLoop draws (listSwap deck i (draws i)) (i + 1) count

/-- `Shuffle(deck, seed)` (Game.cpp): nothing for fewer than two cards,
else swap positions `i = 0 .. n-3` (the C++ loop runs `i < n - 2`)
with the drawn positions. -/
def Shuffle (deck : List Card) (draws : Nat → Nat) : List Card :=
  let n := deck.length
  if n < 2 then deck else shuffleLoop draws deck 0 (n - 2)

/-- The shuffle as claim C5 states it: swap for every `i` in `0..n-2`
inclusive, i.e. `n - 1` iterations. -/
def ShuffleClaimC5 (deck : List Card) (draws : Nat → Nat) : List Card :=
  let n := deck.length
  if n < 2 then deck else shuffleLoop draws deck 0 (n - 1)

/-- `NumberedDeal(seed)` (Game.cpp): fill a 52-card deck with the
values 0..51 and shuffle it with the draw stream of the seeded PRNG. -/
def NumberedDeal (draws : Nat → Nat) : List Card :=
  Shuffle ((List.range 52).map Card.ofValue) draws

/-- `NumberedDeal` as claim C5 states it. -/
def NumberedDealClaimC5 (draws : Nat → Nat) : List Card :=
  ShuffleClaimC5 ((List.range 52).map Card.ofValue) draws

/-- The suit characters, in suit order (Game.cpp `suits`). -/
def suitsChars : List Char := ['c', 'd', 's', 'h']

/-- The rank characters, in rank order (Game.cpp `ranks`). -/
def ranksChars : List Char := ['a', '2', '3', '4', '5', '6', '7', '8', '9', 't', 'j', 'q', 'k']

/-- ASCII `tolower`. -/
def lowerCh (ch : Char) : Char :=
  if 'A' ≤ ch ∧ ch ≤ 'Z' then Char.ofNat (ch.toNat + 32) else ch

/-- `Filtered(input, filter)` (Game.cpp): the characters of `input`
that appear in `filter`, in order. -/
def Filtered (input filter : List Char) : List Char :=
  input.filter fun ch => filter.contains ch

/-- `Card::AsString` (Game.cpp): suit character then rank character. -/
def Card.asString (c : Card) : List Char :=
  [suitsChars.getD c.suit ' ', ranksChars.getD c.rank ' ']

/-- `std::string::find` of a needle inside a haystack starting at a
given offset: the first index where the needle appears as a contiguous
block. -/
def strFindAux (hay needle : List Char) : Nat → Option Nat
  | 0 => none
  | fuel + 1 =>
    if hay.length < needle.length then none
    else if (hay.take needle.length) = needle then some 0
    else match hay with
      | [] => none
      | _ :: rest => (strFindAux rest needle fuel).map (· + 1)

/-- `std::string::find` (substring search). -/
def strFind (hay needle : List Char) : Option Nat :=
  strFindAux hay needle (hay.length + 1)

/-- Index of one character in a string (`find` of a single char). -/
def charFind (hay : List Char) (c : Char) : Option Nat := strFind hay [c]

/-- The shared tail of `CardFromString`: given the suit index and the
rank substring, map `"10"` to `"t"` and look the rank up as a substring
of the rank characters. -/
def cardFromRankStr (suitIndex : Nat) (rankStr : List Char) : Option Card :=
  let rankStr := if rankStr = ['1', '0'] then ['t'] else rankStr
  match strFind ranksChars rankStr with
  | some rankIndex => some ⟨suitIndex, rankIndex⟩
  | none => none

/-- The deck of the C1 counterexample: deck values `0..51` with the
positions of values 29, 30 swapped with positions 29, 30 holding the
ace of diamonds and the ace of hearts, so that after one draw-3 stock
move the top waste card can move to a foundation pile. -/
def deckC1 : List Card :=
  ((List.range 52).map fun i =>
    if i = 29 then 0 else if i = 30 then 13 else if i = 0 then 29
    else if i = 13 then 30 else i).map Card.ofValue

/-- The C1 counterexample game: `Game(deckC1, draw 3, limit 255)`. -/
def gameC1 : Game := Game.new deckC1 3 255

/-- A draw-3 stock move to foundation pile 10 in `gameC1`. -/
def mStockC1 : MoveSpec := StockMove 10 4 3 false

/-- The C1 counterexample state: `gameC1` after the stock move. -/
def gameC1b : Game := gameC1.makeMove mStockC1

/-- The counterexample move: one card from the waste (pile 0) to
foundation pile 9. -/
def mC1 : MoveSpec := NonStockMove 0 9 1 0

/-- The deck of the C8 counterexample: deck values `0..51` with values
0 and 12 swapped, so the king of clubs is dealt to the base of the
first tableau pile. -/
def deckC8 : List Card :=
  ((List.range 52).map fun i => if i = 0 then 12 else if i = 12 then 0 else i).map Card.ofValue

/-- The C8 counterexample game: `Game(deckC8, draw 1, limit 255)`. -/
def gameC8 : Game := Game.new deckC8 1 255

instance (g : Game) : Decidable g.WF := by
  unfold Game.WF
  exact inferInstance

instance (g : Game) (mv : MoveSpec) : Decidable (StockPre g mv) := by
  unfold StockPre
  exact inferInstance

instance (g : Game) (mv : MoveSpec) : Decidable (NonStockPre g mv) := by
  unfold NonStockPre
  exact inferInstance

instance (g : Game) (mv : MoveSpec) : Decidable (MovePre g mv) := by
  unfold MovePre
  exact inferInstance

/-- The deck of the C2 counterexample: a 52-card deck with TWO aces of
clubs (positions 28 and 29) followed by the ace of diamonds, so that
one draw-3 talon move leaves both club aces in the waste. -/
def deckC2 : List Card :=
  ((List.range 52).map fun p =>
    if p ≤ 11 then p + 1
    else if p ≤ 27 then p + 16
    else if p = 28 then 0
    else if p = 29 then 0
    else if p = 30 then 13
    else if p = 31 then 44
    else if p ≤ 45 then p - 18
    else p - 1).map Card.ofValue

/-- The C2 counterexample game: `Game(deckC2, draw 1, limit 255)`. -/
def gameC2 : Game := Game.new deckC2 1 255

/-- A draw-3 talon move playing the ace of diamonds to its foundation
pile. -/
def mv1C2 : MoveSpec := StockMove 10 4 3 false

/-- The C2 counterexample state: both club aces in the waste. -/
def sC2 : Game := gameC2.makeMove mv1C2

/-- The dominant move `AvailableMoves` generates for `sC2`: the top
waste card (an ace of clubs) to its foundation pile. -/
def mvC2 : MoveSpec := NonStockMove 0 9 1 0

/-- The minimum-rank-per-suit table after `misorderAux` scans a list
(an analysis helper, not part of the C++ code). -/
def scanMins (mins : Nat → Nat) : List Card → (Nat → Nat)
  | [] => mins
  | c :: rest =>
    if c.rank < mins c.suit then
      scanMins (fun t => if t = c.suit then c.rank else mins t) rest
    else scanMins mins rest

/-- A small well-formed game with a clean waste: the ace of clubs atop
the three of diamonds. -/
def gClean : Game :=
  { waste := ⟨[⟨1, 2⟩, ⟨0, 0⟩], 0⟩, tableau := List.replicate 7 ⟨[], 0⟩,
    stock := ⟨[], 0⟩, foundation := List.replicate 4 ⟨[], 0⟩,
    drawSetting := 1, recycleLimit := 255, recycleCount := 0, kingSpaces := 0, deck := [] }

/-- One tableau pile's contribution to `MinimumMovesLeft` (an analysis
helper for the fold in KSolveAStar.cpp). -/
def tableauTerm (tPile : Pile) : Nat :=
  if tPile.cards.length ≠ 0 then
    tPile.cards.length
      + MisorderCount (tPile.cards.take (tPile.cards.length - tPile.upCount + 1))
  else 0

/-- A degenerate game whose foundation already holds all 52 cards. -/
def gameWon : Game :=
  { waste := ⟨[], 0⟩, tableau := List.replicate 7 ⟨[], 0⟩, stock := ⟨[], 0⟩,
    foundation := (List.range 4).map (fun s => ⟨(List.range 13).map (fun r => ⟨s, r⟩), 0⟩),
    drawSetting := 1, recycleLimit := 255, recycleCount := 0, kingSpaces := 0, deck := [] }

/-- C4 counterexample, first game: one tableau pile with a face-down
five of clubs under a face-up three of diamonds. -/
def gA4 : Game :=
  { waste := ⟨[], 0⟩,
    tableau := [⟨[⟨0, 5⟩, ⟨1, 3⟩], 1⟩, ⟨[], 0⟩, ⟨[], 0⟩, ⟨[], 0⟩, ⟨[], 0⟩, ⟨[], 0⟩, ⟨[], 0⟩],
    stock := ⟨[], 0⟩, foundation := List.replicate 4 ⟨[], 0⟩,
    drawSetting := 1, recycleLimit := 255, recycleCount := 0, kingSpaces := 0, deck := [] }

/-- C4 counterexample, second game: the same except the face-down card
is the ten of spades. -/
def gB4 : Game :=
  { waste := ⟨[], 0⟩,
    tableau := [⟨[⟨2, 9⟩, ⟨1, 3⟩], 1⟩, ⟨[], 0⟩, ⟨[], 0⟩, ⟨[], 0⟩, ⟨[], 0⟩, ⟨[], 0⟩, ⟨[], 0⟩],
    stock := ⟨[], 0⟩, foundation := List.replicate 4 ⟨[], 0⟩,
    drawSetting := 1, recycleLimit := 255, recycleCount := 0, kingSpaces := 0, deck := [] }

instance (g1 g2 : Game) : Decidable (TableauPermEquiv g1 g2) := by
  unfold TableauPermEquiv
  exact inferInstance

/-- The draw stream of the C5 counterexample: the identity except that
the draw for iteration 50 (which the claim says happens and the code
never makes) answers 51. -/
def drawsC5 : Nat → Nat := fun k => if k = 50 then 51 else k

/-- `CardFromString` (Game.cpp): keep only suit, rank, '1' and '0'
characters of the lower-cased input; accept two or three remaining
characters with the suit letter first or last. -/
def CardFromString (s0 : List Char) : Option Card :=
  let s1 := Filtered (s0.map lowerCh) (suitsChars ++ ranksChars ++ ['1', '0'])
  if s1.length = 2 ∨ s1.length = 3 then
    match charFind suitsChars (s1.getD 0 ' ') with
    | some suitIndex => cardFromRankStr suitIndex (s1.drop 1)
    | none =>
      match charFind suitsChars (s1.getLastD ' ') with
      | some suitIndex => cardFromRankStr suitIndex s1.dropLast
      | none => none
  else none

/-- ASCII `toupper`, for the upper-case round trip of claim C10. -/
def upperCh (ch : Char) : Char :=
  if 'a' ≤ ch ∧ ch ≤ 'z' then Char.ofNat (ch.toNat - 32) else ch

end KSolveNames

namespace KSolveNames

theorem getD_set_self {α} (l : List α) (i : Nat) (a d : α) (h : i < l.length) :
    (l.set i a).getD i d = a := by
  induction l generalizing i with
  | nil => simp at h
  | cons x xs ih =>
    cases i with
    | zero => rfl
    | succ n =>
      simp only [List.set_cons_succ, List.getD_cons_succ]
      exact ih n (by simpa using h)

theorem getD_set_ne {α} (l : List α) {i j : Nat} (a d : α) (h : i ≠ j) :
    (l.set i a).getD j d = l.getD j d := by
  induction l generalizing i j with
  | nil => simp [List.set]
  | cons x xs ih =>
    cases i with
    | zero =>
      cases j with
      | zero => exact absurd rfl h
      | succ m => rfl
    | succ n =>
      cases j with
      | zero => rfl
      | succ m =>
        simp only [List.set_cons_succ, List.getD_cons_succ]
        exact ih (fun hnm => h (by rw [hnm]))

theorem length_set_eq {α} (l : List α) (i : Nat) (a : α) :
    (l.set i a).length = l.length := by
  simp

theorem ucAdd_cast (u : Nat) (c : Int) : ((ucAdd u c : Nat) : Int) = ((u : Int) + c) % 256 := by
  unfold ucAdd
  exact Int.toNat_of_nonneg (Int.emod_nonneg _ (by norm_num))

theorem ucAdd_lt (u : Nat) (c : Int) : ucAdd u c < 256 := by
  unfold ucAdd
  have h := Int.emod_lt_of_pos ((u : Int) + c) (b := 256) (by norm_num)
  omega

theorem ucAdd_zero (u : Nat) (h : u < 256) : ucAdd u 0 = u := by
  unfold ucAdd
  rw [Int.add_zero, Int.emod_eq_of_lt (by omega) (by omega)]
  omega

theorem ucAdd_cancel (u : Nat) (c : Int) (h : u < 256) : ucAdd (ucAdd u c) (-c) = u := by
  unfold ucAdd
  omega

theorem setPile_waste {i : Nat} (h : i ≠ 0) (g : Game) (p : Pile) :
    (g.setPile i p).waste = g.waste := by
  unfold Game.setPile
  split_ifs <;> first | rfl | omega

theorem setPile_stock {i : Nat} (h : i ≠ 8) (g : Game) (p : Pile) :
    (g.setPile i p).stock = g.stock := by
  unfold Game.setPile
  split_ifs <;> first | rfl | omega

theorem setPile_scalars (g : Game) (i : Nat) (p : Pile) :
    (g.setPile i p).kingSpaces = g.kingSpaces ∧
    (g.setPile i p).recycleCount = g.recycleCount ∧
    (g.setPile i p).drawSetting = g.drawSetting ∧
    (g.setPile i p).recycleLimit = g.recycleLimit ∧
    (g.setPile i p).deck = g.deck := by
  unfold Game.setPile
  split_ifs <;> exact ⟨rfl, rfl, rfl, rfl, rfl⟩

theorem setPile_lengths (g : Game) (i : Nat) (p : Pile) :
    (g.setPile i p).tableau.length = g.tableau.length ∧
    (g.setPile i p).foundation.length = g.foundation.length := by
  unfold Game.setPile
  split_ifs <;> simp

theorem getPile_setPile_self (g : Game) {i : Nat} (p : Pile) (hi : i < 13)
    (ht : g.tableau.length = 7) (hf : g.foundation.length = 4) :
    (g.setPile i p).getPile i = p := by
  unfold Game.setPile Game.getPile
  split_ifs with h1 h2 h3 <;> try rfl
  · exact getD_set_self _ _ _ _ (by omega)
  · exact getD_set_self _ _ _ _ (by omega)

theorem getPile_setPile_ne (g : Game) {i j : Nat} (p : Pile) (h : i ≠ j) :
    (g.setPile i p).getPile j = g.getPile j := by
  unfold Game.setPile Game.getPile
  split_ifs <;>
    first
      | rfl
      | omega
      | (exact getD_set_ne _ _ _ (by omega))

theorem set_own {α} (l : List α) (i : Nat) (d : α) (h : i < l.length) :
    l.set i (l.getD i d) = l := by
  induction l generalizing i with
  | nil => simp at h
  | cons x xs ih =>
    cases i with
    | zero => rfl
    | succ n =>
      simp only [List.getD_cons_succ, List.set_cons_succ]
      rw [ih n (by simpa using h)]

theorem setPile_getPile_self (g : Game) {i : Nat} (hi : i < 13)
    (ht : g.tableau.length = 7) (hf : g.foundation.length = 4) :
    g.setPile i (g.getPile i) = g := by
  unfold Game.setPile Game.getPile
  split_ifs with h1 h2 h3
  · rfl
  · rw [set_own _ _ _ (by omega)]
  · rfl
  · rw [set_own _ _ _ (by omega)]

theorem getPile_congr {g g' : Game} (hw : g.waste = g'.waste) (ht : g.tableau = g'.tableau)
    (hs : g.stock = g'.stock) (hf : g.foundation = g'.foundation) (i : Nat) :
    g.getPile i = g'.getPile i := by
  unfold Game.getPile
  split_ifs <;> simp_all

theorem drawMany_spec (k : Nat) : ∀ (dst src : Pile), k ≤ src.cards.length →
    drawMany dst src k =
      ({ dst with cards := dst.cards ++ (src.cards.drop (src.cards.length - k)).reverse },
       { src with cards := src.cards.take (src.cards.length - k) }) := by
  induction k with
  | zero =>
    intro dst src h
    simp [drawMany]
  | succ k ih =>
    intro dst src h
    rcases List.eq_nil_or_concat src.cards with hnil | ⟨l', b, hsrc⟩
    · rw [hnil] at h; simp at h
    · rw [List.concat_eq_append] at hsrc
      have hlen : src.cards.length = l'.length + 1 := by rw [hsrc]; simp
      have hk : k ≤ l'.length := by omega
      have hstep : drawMany dst src (k + 1) =
          drawMany { dst with cards := dst.cards ++ [b] } { src with cards := l' } k := by
        show drawMany (drawOne dst src).1 (drawOne dst src).2 k = _
        unfold drawOne Pile.back
        rw [hsrc, List.getLastD_concat, List.dropLast_concat]
      rw [hstep, ih _ _ (by simpa using hk)]
      have h0 : l'.length - k - l'.length = 0 := by omega
      simp only [Prod.mk.injEq, Pile.mk.injEq]
      refine ⟨⟨?_, trivial⟩, ?_, trivial⟩
      · rw [hsrc]
        have hj : (l' ++ [b]).length - (k + 1) = l'.length - k := by
          simp only [List.length_append, List.length_singleton]; omega
        rw [hj, List.drop_append_eq_append_drop, h0, List.drop_zero,
          List.reverse_append, List.reverse_singleton]
        simp [List.append_assoc]
      · rw [hsrc]
        have hj : (l' ++ [b]).length - (k + 1) = l'.length - k := by
          simp only [List.length_append, List.length_singleton]; omega
        rw [hj, List.take_append_eq_append_take, h0, List.take_zero, List.append_nil]

theorem drawInt_nonneg (a b : Pile) (d : Int) (h0 : 0 ≤ d) (h : d.toNat ≤ b.cards.length) :
    a.drawInt b d =
      ({ a with cards := a.cards ++ (b.cards.drop (b.cards.length - d.toNat)).reverse },
       { b with cards := b.cards.take (b.cards.length - d.toNat) }) := by
  unfold Pile.drawInt
  rw [if_neg (by omega), drawMany_spec _ _ _ h]

theorem drawInt_neg (a b : Pile) (d : Int) (h0 : d < 0) (h : (-d).toNat ≤ a.cards.length) :
    a.drawInt b d =
      ({ a with cards := a.cards.take (a.cards.length - (-d).toNat) },
       { b with cards := b.cards ++ (a.cards.drop (a.cards.length - (-d).toNat)).reverse }) := by
  unfold Pile.drawInt
  rw [if_pos h0, drawMany_spec _ _ _ h]

theorem setPile_kingSpaces (g : Game) (i : Nat) (p : Pile) :
    (g.setPile i p).kingSpaces = g.kingSpaces := (setPile_scalars g i p).1

theorem setPile_recycleCount (g : Game) (i : Nat) (p : Pile) :
    (g.setPile i p).recycleCount = g.recycleCount := (setPile_scalars g i p).2.1

theorem setPile_drawSetting (g : Game) (i : Nat) (p : Pile) :
    (g.setPile i p).drawSetting = g.drawSetting := (setPile_scalars g i p).2.2.1

theorem setPile_recycleLimit (g : Game) (i : Nat) (p : Pile) :
    (g.setPile i p).recycleLimit = g.recycleLimit := (setPile_scalars g i p).2.2.2.1

theorem setPile_deck (g : Game) (i : Nat) (p : Pile) :
    (g.setPile i p).deck = g.deck := (setPile_scalars g i p).2.2.2.2

theorem setPile_setPile (g : Game) (i : Nat) (p q : Pile) :
    (g.setPile i p).setPile i q = g.setPile i q := by
  unfold Game.setPile
  split_ifs <;> simp [List.set_set]

theorem setPile_comm (x : Game) {i j : Nat} (p q : Pile) (h : i ≠ j) :
    (x.setPile i p).setPile j q = (x.setPile j q).setPile i p := by
  unfold Game.setPile
  split_ifs <;>
    first
      | omega
      | rfl
      | rw [List.set_comm _ _ _ (by omega : i - 1 ≠ j - 1)]
      | rw [List.set_comm _ _ _ (by omega : i - 9 ≠ j - 9)]

theorem setWaste_waste (g : Game) (p : Pile) : (g.setWaste p).waste = p := rfl

theorem setWaste_stock (g : Game) (p : Pile) : (g.setWaste p).stock = g.stock := rfl

theorem setWaste_tableau (g : Game) (p : Pile) : (g.setWaste p).tableau = g.tableau := rfl

theorem setWaste_foundation (g : Game) (p : Pile) :
    (g.setWaste p).foundation = g.foundation := rfl

theorem setWaste_kingSpaces (g : Game) (p : Pile) :
    (g.setWaste p).kingSpaces = g.kingSpaces := rfl

theorem setWaste_recycleCount (g : Game) (p : Pile) :
    (g.setWaste p).recycleCount = g.recycleCount := rfl

theorem setStock_waste (g : Game) (p : Pile) : (g.setStock p).waste = g.waste := rfl

theorem setStock_stock (g : Game) (p : Pile) : (g.setStock p).stock = p := rfl

theorem setStock_tableau (g : Game) (p : Pile) : (g.setStock p).tableau = g.tableau := rfl

theorem setStock_foundation (g : Game) (p : Pile) :
    (g.setStock p).foundation = g.foundation := rfl

theorem setStock_kingSpaces (g : Game) (p : Pile) :
    (g.setStock p).kingSpaces = g.kingSpaces := rfl

theorem setStock_recycleCount (g : Game) (p : Pile) :
    (g.setStock p).recycleCount = g.recycleCount := rfl

theorem setRecycleCount_waste (g : Game) (r : Nat) : (g.setRecycleCount r).waste = g.waste := rfl

theorem setRecycleCount_stock (g : Game) (r : Nat) : (g.setRecycleCount r).stock = g.stock := rfl

theorem setRecycleCount_tableau (g : Game) (r : Nat) :
    (g.setRecycleCount r).tableau = g.tableau := rfl

theorem setRecycleCount_foundation (g : Game) (r : Nat) :
    (g.setRecycleCount r).foundation = g.foundation := rfl

theorem setRecycleCount_kingSpaces (g : Game) (r : Nat) :
    (g.setRecycleCount r).kingSpaces = g.kingSpaces := rfl

theorem setRecycleCount_recycleCount (g : Game) (r : Nat) :
    (g.setRecycleCount r).recycleCount = r := rfl

theorem setKingSpaces_waste (g : Game) (k : Nat) : (g.setKingSpaces k).waste = g.waste := rfl

theorem setKingSpaces_stock (g : Game) (k : Nat) : (g.setKingSpaces k).stock = g.stock := rfl

theorem setKingSpaces_tableau (g : Game) (k : Nat) :
    (g.setKingSpaces k).tableau = g.tableau := rfl

theorem setKingSpaces_foundation (g : Game) (k : Nat) :
    (g.setKingSpaces k).foundation = g.foundation := rfl

theorem setKingSpaces_kingSpaces (g : Game) (k : Nat) :
    (g.setKingSpaces k).kingSpaces = k := rfl

theorem setKingSpaces_recycleCount (g : Game) (k : Nat) :
    (g.setKingSpaces k).recycleCount = g.recycleCount := rfl

theorem getPile_setWaste {i : Nat} (h : i ≠ 0) (g : Game) (p : Pile) :
    (g.setWaste p).getPile i = g.getPile i := by
  unfold Game.getPile Game.setWaste
  split_ifs <;> first | omega | rfl

theorem getPile_setStock {i : Nat} (h : i ≠ 8) (g : Game) (p : Pile) :
    (g.setStock p).getPile i = g.getPile i := by
  unfold Game.getPile Game.setStock
  split_ifs <;> first | omega | rfl

theorem getPile_setRecycleCount (g : Game) (r i : Nat) :
    (g.setRecycleCount r).getPile i = g.getPile i := by
  unfold Game.getPile Game.setRecycleCount
  split_ifs <;> rfl

theorem getPile_setKingSpaces (g : Game) (k i : Nat) :
    (g.setKingSpaces k).getPile i = g.getPile i := by
  unfold Game.getPile Game.setKingSpaces
  split_ifs <;> rfl

theorem setWaste_setPile {i : Nat} (h : i ≠ 0) (g : Game) (w p : Pile) :
    (g.setWaste w).setPile i p = (g.setPile i p).setWaste w := by
  unfold Game.setPile Game.setWaste
  split_ifs <;> first | omega | rfl

theorem setStock_setPile {i : Nat} (h : i ≠ 8) (g : Game) (s p : Pile) :
    (g.setStock s).setPile i p = (g.setPile i p).setStock s := by
  unfold Game.setPile Game.setStock
  split_ifs <;> first | omega | rfl

theorem setRecycleCount_setPile (g : Game) (r i : Nat) (p : Pile) :
    (g.setRecycleCount r).setPile i p = (g.setPile i p).setRecycleCount r := by
  unfold Game.setPile Game.setRecycleCount
  split_ifs <;> rfl

theorem setKingSpaces_setPile (g : Game) (k i : Nat) (p : Pile) :
    (g.setKingSpaces k).setPile i p = (g.setPile i p).setKingSpaces k := by
  unfold Game.setPile Game.setKingSpaces
  split_ifs <;> rfl

theorem setWaste_setWaste (g : Game) (a b : Pile) : (g.setWaste a).setWaste b = g.setWaste b := rfl

theorem setStock_setStock (g : Game) (a b : Pile) : (g.setStock a).setStock b = g.setStock b := rfl

theorem setRecycleCount_setRecycleCount (g : Game) (a b : Nat) :
    (g.setRecycleCount a).setRecycleCount b = g.setRecycleCount b := rfl

theorem setKingSpaces_setKingSpaces (g : Game) (a b : Nat) :
    (g.setKingSpaces a).setKingSpaces b = g.setKingSpaces b := rfl

theorem setStock_setWaste (g : Game) (s w : Pile) :
    (g.setStock s).setWaste w = (g.setWaste w).setStock s := rfl

theorem setRecycleCount_setWaste (g : Game) (r : Nat) (w : Pile) :
    (g.setRecycleCount r).setWaste w = (g.setWaste w).setRecycleCount r := rfl

theorem setRecycleCount_setStock (g : Game) (r : Nat) (s : Pile) :
    (g.setRecycleCount r).setStock s = (g.setStock s).setRecycleCount r := rfl

theorem setWaste_self (g : Game) : g.setWaste g.waste = g := rfl

theorem setStock_self (g : Game) : g.setStock g.stock = g := rfl

theorem setRecycleCount_self (g : Game) : g.setRecycleCount g.recycleCount = g := rfl

theorem setKingSpaces_self (g : Game) : g.setKingSpaces g.kingSpaces = g := rfl

theorem dropLast_append_getLastD {α} [Inhabited α] {l : List α} (h : l ≠ []) :
    l.dropLast ++ [l.getLastD default] = l := by
  rcases List.eq_nil_or_concat l with hnil | ⟨l', b, hl⟩
  · exact absurd hnil h
  · rw [List.concat_eq_append] at hl
    rw [hl, List.dropLast_concat, List.getLastD_concat]

theorem ucAdd_recycle_cancel (u : Nat) (h : u < 256) (b : Bool) :
    ucAdd (ucAdd u (if b then 1 else 0)) (if b then -1 else 0) = u := by
  cases b
  · simp only [Bool.false_eq_true, if_false]
    rw [ucAdd_zero _ h, ucAdd_zero _ h]
  · simp only [if_true]
    have : (-1 : Int) = -(1 : Int) := rfl
    rw [this]
    exact ucAdd_cancel u 1 h

/-- The normal form of `Game::MakeMove` for a stock move with a
tableau or foundation destination. -/
theorem makeMove_stock_eq (X : Game) (mv : MoveSpec) (hsm : mv.isStockMove = true)
    (h0 : mv.toP ≠ 0) (h8 : mv.toP ≠ 8) :
    X.makeMove mv =
      (((X.setPile mv.toP
            ⟨(X.getPile mv.toP).cards ++ [(X.waste.drawInt X.stock mv.drawCount).1.back],
              ucAdd (X.getPile mv.toP).upCount 1⟩).setWaste
          ⟨(X.waste.drawInt X.stock mv.drawCount).1.cards.dropLast,
            (X.waste.drawInt X.stock mv.drawCount).1.upCount⟩).setStock
        (X.waste.drawInt X.stock mv.drawCount).2).setRecycleCount
        (ucAdd X.recycleCount (if mv.recycle then 1 else 0)) := by
  unfold Game.makeMove
  rw [if_pos hsm]
  simp only [setStock_waste, setWaste_waste, setStock_setWaste, setWaste_setWaste,
    getPile_setStock h8, getPile_setWaste h0, setStock_setPile h8, setWaste_setPile h0,
    setPile_recycleCount, setWaste_recycleCount, setStock_recycleCount]

/-- The normal form of `Game::UnMakeMove` for a stock move with a
tableau or foundation destination. -/
theorem unMakeMove_stock_eq (X : Game) (mv : MoveSpec) (hsm : mv.isStockMove = true)
    (h0 : mv.toP ≠ 0) (h8 : mv.toP ≠ 8) :
    X.unMakeMove mv =
      (((X.setPile mv.toP
            ⟨(X.getPile mv.toP).cards.dropLast, ucAdd (X.getPile mv.toP).upCount (-1)⟩).setWaste
          (X.stock.drawInt ⟨X.waste.cards ++ [(X.getPile mv.toP).back], X.waste.upCount⟩
            mv.drawCount).2).setStock
        (X.stock.drawInt ⟨X.waste.cards ++ [(X.getPile mv.toP).back], X.waste.upCount⟩
          mv.drawCount).1).setRecycleCount
        (ucAdd X.recycleCount (if mv.recycle then -1 else 0)) := by
  unfold Game.unMakeMove
  rw [if_pos hsm]
  simp only [setPile_waste h0, setPile_stock h8, setWaste_waste, setWaste_stock,
    setStock_setWaste, setWaste_setWaste, setPile_recycleCount, setWaste_recycleCount,
    setStock_recycleCount]

/-- The make/unmake round trip for a stock move restores the game
exactly, given the facts about the draw/undraw pair supplied by the
sign analysis of the draw count. -/
theorem roundTrip_stock_core (g : Game) (mv : MoveSpec) (h8 : mv.fromP = 8)
    (ht7 : g.tableau.length = 7) (hf4 : g.foundation.length = 4)
    (hrc : g.recycleCount < 256) (hupto : (g.getPile mv.toP).upCount < 256)
    (ht0 : mv.toP ≠ 0) (ht8 : mv.toP ≠ 8) (ht13 : mv.toP < 13)
    (W1c S1c : List Card)
    (hmkdraw : g.waste.drawInt g.stock mv.drawCount
      = (⟨W1c, g.waste.upCount⟩, ⟨S1c, g.stock.upCount⟩))
    (hW1 : W1c ≠ [])
    (hundraw : Pile.drawInt ⟨S1c, g.stock.upCount⟩ ⟨W1c, g.waste.upCount⟩ mv.drawCount
      = (g.stock, g.waste)) :
    (g.makeMove mv).unMakeMove mv = g := by
  have hsm : mv.isStockMove = true := by simp [MoveSpec.isStockMove, h8]
  rw [makeMove_stock_eq g mv hsm ht0 ht8, hmkdraw]
  simp only []
  rw [unMakeMove_stock_eq _ mv hsm ht0 ht8]
  simp only [getPile_setRecycleCount, getPile_setStock ht8, getPile_setWaste ht0,
    setRecycleCount_waste, setStock_waste, setWaste_waste, setRecycleCount_stock,
    setStock_stock, setRecycleCount_recycleCount, setWaste_recycleCount,
    setStock_recycleCount, setPile_recycleCount,
    setRecycleCount_setPile, setStock_setPile ht8, setWaste_setPile ht0, setPile_setPile,
    setRecycleCount_setWaste, setStock_setWaste, setWaste_setWaste,
    setRecycleCount_setStock, setStock_setStock, setRecycleCount_setRecycleCount]
  rw [getPile_setPile_self g _ ht13 ht7 hf4]
  simp only [Pile.back, List.getLastD_concat, List.dropLast_concat]
  rw [ucAdd_cancel _ 1 hupto]
  rw [dropLast_append_getLastD hW1]
  rw [hundraw]
  simp only []
  rw [ucAdd_recycle_cancel g.recycleCount hrc]
  have heta : (⟨(g.getPile mv.toP).cards, (g.getPile mv.toP).upCount⟩ : Pile)
      = g.getPile mv.toP := rfl
  rw [heta, setPile_getPile_self g ht13 ht7 hf4]
  rw [setWaste_self, setStock_self, setRecycleCount_self]

/-- The normal form of `Game::MakeMove` for a non-stock, non-ladder
move between distinct in-range piles: the to pile takes the last
`NCards()` cards and its up count grows by that number; the from pile
keeps its prefix, with up count adjusted (or zeroed when emptied); the
king-space counter grows when a tableau from pile is emptied. -/
theorem makeMove_nonstock_eq (X : Game) (mv : MoveSpec)
    (ht7 : X.tableau.length = 7) (hf4 : X.foundation.length = 4)
    (hks : X.kingSpaces < 256)
    (hns : mv.isStockMove = false) (hlad : mv.isLadderMove = false)
    (hf13 : mv.fromP < 13) (ht13 : mv.toP < 13) (hft : mv.fromP ≠ mv.toP) :
    X.makeMove mv =
      ((X.setPile mv.toP
            ⟨(X.getPile mv.toP).cards ++
                (X.getPile mv.fromP).cards.drop
                  ((X.getPile mv.fromP).cards.length - mv.nCards),
              ucAdd (X.getPile mv.toP).upCount (mv.nCards : Int)⟩).setPile mv.fromP
          ⟨(X.getPile mv.fromP).cards.take ((X.getPile mv.fromP).cards.length - mv.nCards),
            if (X.getPile mv.fromP).cards.length - mv.nCards = 0 then 0
            else ucAdd (X.getPile mv.fromP).upCount
              ((if mv.flipsTopCard then 1 else 0) - (mv.nCards : Int))⟩).setKingSpaces
        (ucAdd X.kingSpaces
          (if (X.getPile mv.fromP).cards.length - mv.nCards = 0 ∧ isTableauCode mv.fromP = true
            then 1 else 0)) := by
  have hns' : ¬ (mv.isStockMove = true) := by simp [hns]
  have hd1 := setPile_lengths X mv.toP
    ⟨(X.getPile mv.toP).cards ++
        (X.getPile mv.fromP).cards.drop ((X.getPile mv.fromP).cards.length - mv.nCards),
      (X.getPile mv.toP).upCount⟩
  have hjug : ∀ (a b c : Pile),
      ((X.setPile mv.toP a).setPile mv.fromP b).setPile mv.toP c
        = (X.setPile mv.toP c).setPile mv.fromP b := by
    intro a b c
    rw [setPile_comm _ _ _ hft, setPile_setPile]
  unfold Game.makeMove
  rw [if_neg hns']
  simp only [hlad, Bool.false_eq_true, if_false, add_zero]
  rw [getPile_setPile_ne _ _ hft, getPile_setPile_self X _ ht13 ht7 hf4]
  simp only []
  rw [getPile_setPile_ne _ _ (Ne.symm hft)]
  rw [getPile_setPile_self _ _ hf13 (hd1.1.trans ht7) (hd1.2.trans hf4)]
  simp only [List.length_take]
  have hmin : ((X.getPile mv.fromP).cards.length - mv.nCards) ⊓ (X.getPile mv.fromP).cards.length
      = (X.getPile mv.fromP).cards.length - mv.nCards := by omega
  rw [hmin]
  by_cases hemp : (X.getPile mv.fromP).cards.length - mv.nCards = 0
  · rw [if_neg (by omega : ¬((X.getPile mv.fromP).cards.length - mv.nCards ≠ 0))]
    simp only [setPile_kingSpaces]
    rw [setKingSpaces_setPile, hjug, setPile_setPile]
    rw [if_pos hemp]
    by_cases htab : isTableauCode mv.fromP = true
    · rw [if_pos (And.intro hemp htab), if_pos htab]
    · have hno : ¬((X.getPile mv.fromP).cards.length - mv.nCards = 0
          ∧ isTableauCode mv.fromP = true) := fun hc => htab hc.2
      rw [if_neg hno, if_neg htab]
  · rw [if_pos hemp]
    rw [hjug, setPile_setPile]
    have hno : ¬((X.getPile mv.fromP).cards.length - mv.nCards = 0
        ∧ isTableauCode mv.fromP = true) := fun hc => hemp hc.1
    rw [if_neg hemp, if_neg hno, ucAdd_zero _ hks]
    have hYks : X.kingSpaces =
        ((X.setPile mv.toP
            ⟨(X.getPile mv.toP).cards ++
                (X.getPile mv.fromP).cards.drop
                  ((X.getPile mv.fromP).cards.length - mv.nCards),
              ucAdd (X.getPile mv.toP).upCount (mv.nCards : Int)⟩).setPile mv.fromP
          ⟨(X.getPile mv.fromP).cards.take ((X.getPile mv.fromP).cards.length - mv.nCards),
            ucAdd (X.getPile mv.fromP).upCount
              ((if mv.flipsTopCard then 1 else 0) - (mv.nCards : Int))⟩).kingSpaces := by
      simp only [setPile_kingSpaces]
    rw [hYks, setKingSpaces_self]

/-- The normal form of `Game::UnMakeMove` for a non-stock, non-ladder
move whose from pile is not a tableau pile: the cards are moved back;
no up count is restored on the from pile and the king-space counter is
untouched. -/
theorem unMakeMove_nontab_eq (X : Game) (mv : MoveSpec)
    (hns : mv.isStockMove = false) (hlad : mv.isLadderMove = false)
    (htab : isTableauCode mv.fromP = false) :
    X.unMakeMove mv =
      (X.setPile mv.fromP
          ⟨(X.getPile mv.fromP).cards ++
              (X.getPile mv.toP).cards.drop ((X.getPile mv.toP).cards.length - mv.nCards),
            (X.getPile mv.fromP).upCount⟩).setPile mv.toP
        ⟨(X.getPile mv.toP).cards.take ((X.getPile mv.toP).cards.length - mv.nCards),
          ucAdd (X.getPile mv.toP).upCount (-(mv.nCards : Int))⟩ := by
  have hns' : ¬ (mv.isStockMove = true) := by simp [hns]
  unfold Game.unMakeMove
  rw [if_neg hns']
  simp only [hlad, htab, Bool.false_eq_true, if_false]

/-- The normal form of `Game::UnMakeMove` for a non-stock, non-ladder
move from a tableau pile: the saved `FromUpCount()` is restored, the
cards are moved back, and the king-space counter is decremented when
the from pile had been emptied. -/
theorem unMakeMove_tab_eq (X : Game) (mv : MoveSpec)
    (ht7 : X.tableau.length = 7) (hf4 : X.foundation.length = 4)
    (hns : mv.isStockMove = false) (hlad : mv.isLadderMove = false)
    (htab : isTableauCode mv.fromP = true)
    (hf13 : mv.fromP < 13) (hft : mv.fromP ≠ mv.toP) :
    X.unMakeMove mv =
      ((X.setPile mv.fromP
            ⟨(X.getPile mv.fromP).cards ++
                (X.getPile mv.toP).cards.drop ((X.getPile mv.toP).cards.length - mv.nCards),
              mv.fromUpCount⟩).setPile mv.toP
          ⟨(X.getPile mv.toP).cards.take ((X.getPile mv.toP).cards.length - mv.nCards),
            ucAdd (X.getPile mv.toP).upCount (-(mv.nCards : Int))⟩).setKingSpaces
        (ucAdd X.kingSpaces
          (if (X.getPile mv.fromP).cards.isEmpty then -1 else 0)) := by
  have hns' : ¬ (mv.isStockMove = true) := by simp [hns]
  unfold Game.unMakeMove
  rw [if_neg hns']
  simp only [hlad, htab, Bool.false_eq_true, if_false, if_true]
  simp only [getPile_setKingSpaces, setKingSpaces_setPile, setKingSpaces_kingSpaces]
  rw [getPile_setPile_self X _ hf13 ht7 hf4, getPile_setPile_ne _ _ hft]
  simp only [setKingSpaces_setPile, setPile_setPile]

/-- The normal form of `Game::UnMakeMove` for a ladder move: the
ladder card returns from its foundation pile, the saved up count is
restored, the moved cards return, and the king-space counter is
decremented when the ladder had emptied the from pile. -/
theorem unMakeMove_ladder_eq (X : Game) (mv : MoveSpec)
    (ht7 : X.tableau.length = 7) (hf4 : X.foundation.length = 4)
    (hns : mv.isStockMove = false) (hlad : mv.isLadderMove = true)
    (htab : isTableauCode mv.fromP = true)
    (hf13 : mv.fromP < 13) (hft : mv.fromP ≠ mv.toP)
    (hlf : mv.ladderPileCode ≠ mv.fromP) (hlt : mv.ladderPileCode ≠ mv.toP) :
    X.unMakeMove mv =
      (((X.setPile mv.fromP
            ⟨((X.getPile mv.fromP).cards ++ [(X.getPile mv.ladderPileCode).back]) ++
                (X.getPile mv.toP).cards.drop ((X.getPile mv.toP).cards.length - mv.nCards),
              mv.fromUpCount⟩).setPile mv.ladderPileCode
          ⟨(X.getPile mv.ladderPileCode).cards.dropLast,
            (X.getPile mv.ladderPileCode).upCount⟩).setPile mv.toP
        ⟨(X.getPile mv.toP).cards.take ((X.getPile mv.toP).cards.length - mv.nCards),
          ucAdd (X.getPile mv.toP).upCount (-(mv.nCards : Int))⟩).setKingSpaces
      (ucAdd X.kingSpaces (if (X.getPile mv.fromP).cards.isEmpty then -1 else 0)) := by
  have hns' : ¬ (mv.isStockMove = true) := by simp [hns]
  unfold Game.unMakeMove
  rw [if_neg hns']
  simp only [hlad, htab, if_true]
  simp only [getPile_setKingSpaces, setKingSpaces_setPile, setKingSpaces_kingSpaces]
  rw [getPile_setPile_ne _ _ hlf, getPile_setPile_self X _ hf13 ht7 hf4]
  have hne : ((X.getPile mv.fromP).cards ++ [(X.getPile mv.ladderPileCode).back]).isEmpty
      = false := by
    simp
  rw [hne]
  simp only [Bool.false_eq_true, if_false]
  rw [ucAdd_zero _ (ucAdd_lt _ _)]
  simp only [setKingSpaces_setKingSpaces, setKingSpaces_setPile, getPile_setKingSpaces]
  rw [setPile_comm _ _ _ hlf, setPile_setPile]
  rw [getPile_setPile_ne _ _ hlf, getPile_setPile_self X _ hf13 ht7 hf4]
  rw [getPile_setPile_ne _ _ hlt, getPile_setPile_ne _ _ hft]
  simp only [setKingSpaces_setPile]
  rw [setPile_comm _ _ _ hlf, setPile_setPile]


theorem setPile_tableau_length (g : Game) (i : Nat) (p : Pile) :
    (g.setPile i p).tableau.length = g.tableau.length := (setPile_lengths g i p).1

theorem setPile_foundation_length (g : Game) (i : Nat) (p : Pile) :
    (g.setPile i p).foundation.length = g.foundation.length := (setPile_lengths g i p).2

/-- `Game::UnMakeMove` for a non-stock, non-ladder tableau-from move,
applied to a state built by two pile writes and a king-space write over
a well-dimensioned base: the unmake acts directly on the written
piles. -/
theorem unMakeMove_tab_on_built (g : Game) (mv : MoveSpec)
    (ht7 : g.tableau.length = 7) (hf4 : g.foundation.length = 4)
    (hns : mv.isStockMove = false) (hlad : mv.isLadderMove = false)
    (htab : isTableauCode mv.fromP = true)
    (hf13 : mv.fromP < 13) (ht13 : mv.toP < 13) (hft : mv.fromP ≠ mv.toP)
    (A B : Pile) (K : Nat) :
    (((g.setPile mv.toP A).setPile mv.fromP B).setKingSpaces K).unMakeMove mv
      = ((g.setPile mv.toP
            ⟨A.cards.take (A.cards.length - mv.nCards),
              ucAdd A.upCount (-(mv.nCards : Int))⟩).setPile mv.fromP
          ⟨B.cards ++ A.cards.drop (A.cards.length - mv.nCards),
            mv.fromUpCount⟩).setKingSpaces
        (ucAdd K (if B.cards.isEmpty then -1 else 0)) := by
  have hmt7 : (((g.setPile mv.toP A).setPile mv.fromP B).setKingSpaces K).tableau.length = 7 := by
    rw [setKingSpaces_tableau, setPile_tableau_length, setPile_tableau_length, ht7]
  have hmf4 : (((g.setPile mv.toP A).setPile mv.fromP B).setKingSpaces K).foundation.length
      = 4 := by
    rw [setKingSpaces_foundation, setPile_foundation_length, setPile_foundation_length, hf4]
  have hgf : (((g.setPile mv.toP A).setPile mv.fromP B).setKingSpaces K).getPile mv.fromP
      = B := by
    rw [getPile_setKingSpaces, getPile_setPile_self _ _ hf13
      ((setPile_lengths g mv.toP A).1.trans ht7) ((setPile_lengths g mv.toP A).2.trans hf4)]
  have hgt : (((g.setPile mv.toP A).setPile mv.fromP B).setKingSpaces K).getPile mv.toP
      = A := by
    rw [getPile_setKingSpaces, getPile_setPile_ne _ _ hft,
      getPile_setPile_self g _ ht13 ht7 hf4]
  rw [unMakeMove_tab_eq _ mv hmt7 hmf4 hns hlad htab hf13 hft]
  rw [hgf, hgt]
  simp only [setKingSpaces_setPile, setPile_setPile, setKingSpaces_setKingSpaces,
    setKingSpaces_kingSpaces]
  rw [setPile_comm _ _ _ hft, setPile_setPile]

/-- `Game::UnMakeMove` for a non-stock, non-ladder move from the waste
or a foundation pile, applied to a state built by two pile writes over
a well-dimensioned base. -/
theorem unMakeMove_nontab_on_built (g : Game) (mv : MoveSpec)
    (ht7 : g.tableau.length = 7) (hf4 : g.foundation.length = 4)
    (hns : mv.isStockMove = false) (hlad : mv.isLadderMove = false)
    (htab : isTableauCode mv.fromP = false)
    (hf13 : mv.fromP < 13) (ht13 : mv.toP < 13) (hft : mv.fromP ≠ mv.toP)
    (A B : Pile) :
    ((g.setPile mv.toP A).setPile mv.fromP B).unMakeMove mv
      = (g.setPile mv.toP
            ⟨A.cards.take (A.cards.length - mv.nCards),
              ucAdd A.upCount (-(mv.nCards : Int))⟩).setPile mv.fromP
          ⟨B.cards ++ A.cards.drop (A.cards.length - mv.nCards), B.upCount⟩ := by
  have hgf : ((g.setPile mv.toP A).setPile mv.fromP B).getPile mv.fromP = B := by
    rw [getPile_setPile_self _ _ hf13
      ((setPile_lengths g mv.toP A).1.trans ht7) ((setPile_lengths g mv.toP A).2.trans hf4)]
  have hgt : ((g.setPile mv.toP A).setPile mv.fromP B).getPile mv.toP = A := by
    rw [getPile_setPile_ne _ _ hft, getPile_setPile_self g _ ht13 ht7 hf4]
  rw [unMakeMove_nontab_eq _ mv hns hlad htab]
  rw [hgf, hgt]
  simp only [setPile_setPile]
  rw [setPile_comm _ _ _ hft, setPile_setPile]

/-- Make/unmake round trip for a non-stock, non-ladder move from a
tableau pile: the game is restored exactly. -/
theorem roundTrip_tab (g : Game) (mv : MoveSpec)
    (ht7 : g.tableau.length = 7) (hf4 : g.foundation.length = 4)
    (hks : g.kingSpaces < 256) (hupt : (g.getPile mv.toP).upCount < 256)
    (hns : mv.isStockMove = false) (hlad : mv.isLadderMove = false)
    (htab : isTableauCode mv.fromP = true)
    (hf13 : mv.fromP < 13) (ht13 : mv.toP < 13) (hft : mv.fromP ≠ mv.toP)
    (hn1 : 1 ≤ mv.nCards) (hlen : mv.nCards ≤ (g.getPile mv.fromP).cards.length)
    (hfup : mv.fromUpCount = (g.getPile mv.fromP).upCount) :
    (g.makeMove mv).unMakeMove mv = g := by
  rw [makeMove_nonstock_eq g mv ht7 hf4 hks hns hlad hf13 ht13 hft]
  rw [unMakeMove_tab_on_built g mv ht7 hf4 hns hlad htab hf13 ht13 hft]
  have hmlen : ((g.getPile mv.fromP).cards.drop
      ((g.getPile mv.fromP).cards.length - mv.nCards)).length = mv.nCards := by
    rw [List.length_drop]
    omega
  simp only [List.length_append, hmlen]
  have hsub : (g.getPile mv.toP).cards.length + mv.nCards - mv.nCards
      = (g.getPile mv.toP).cards.length := by omega
  rw [hsub, List.take_left, List.drop_left, List.take_append_drop]
  rw [ucAdd_cancel _ _ hupt, ← hfup]
  have heta1 : (⟨(g.getPile mv.toP).cards, (g.getPile mv.toP).upCount⟩ : Pile)
      = g.getPile mv.toP := rfl
  have heta2 : (⟨(g.getPile mv.fromP).cards, mv.fromUpCount⟩ : Pile)
      = g.getPile mv.fromP := by rw [hfup]
  rw [heta1, heta2, setPile_getPile_self g ht13 ht7 hf4, setPile_getPile_self g hf13 ht7 hf4]
  by_cases hemp : (g.getPile mv.fromP).cards.length - mv.nCards = 0
  · rw [if_pos (And.intro hemp htab)]
    have hie : ((g.getPile mv.fromP).cards.take
        ((g.getPile mv.fromP).cards.length - mv.nCards)).isEmpty = true := by
      rw [hemp, List.take_zero]
      rfl
    rw [hie]
    simp only [if_true]
    have hm1 : (-1 : Int) = -(1 : Int) := rfl
    rw [hm1, ucAdd_cancel _ _ hks, setKingSpaces_self]
  · have hno : ¬((g.getPile mv.fromP).cards.length - mv.nCards = 0
        ∧ isTableauCode mv.fromP = true) := fun hc => hemp hc.1
    rw [if_neg hno]
    have hie : ((g.getPile mv.fromP).cards.take
        ((g.getPile mv.fromP).cards.length - mv.nCards)).isEmpty = false := by
      cases hk : (g.getPile mv.fromP).cards.take
          ((g.getPile mv.fromP).cards.length - mv.nCards) with
      | nil =>
        exfalso
        have := congrArg List.length hk
        rw [List.length_take] at this
        simp only [List.length_nil] at this
        omega
      | cons a as => rfl
    rw [hie]
    simp only [Bool.false_eq_true, if_false]
    rw [ucAdd_zero _ hks, ucAdd_zero _ hks, setKingSpaces_self]

/-- Make/unmake round trip for a non-stock, non-ladder move from the
waste or a foundation pile: every pile's cards are restored, but the
from pile keeps the up count that `MakeMove` wrote, since `UnMakeMove`
only restores up counts of tableau from piles. -/
theorem roundTrip_nontab (g : Game) (mv : MoveSpec)
    (ht7 : g.tableau.length = 7) (hf4 : g.foundation.length = 4)
    (hks : g.kingSpaces < 256) (hupt : (g.getPile mv.toP).upCount < 256)
    (hns : mv.isStockMove = false) (hlad : mv.isLadderMove = false)
    (htab : isTableauCode mv.fromP = false)
    (hf13 : mv.fromP < 13) (ht13 : mv.toP < 13) (hft : mv.fromP ≠ mv.toP)
    (hn1 : 1 ≤ mv.nCards) (hlen : mv.nCards ≤ (g.getPile mv.fromP).cards.length) :
    (g.makeMove mv).unMakeMove mv
      = g.setPile mv.fromP ⟨(g.getPile mv.fromP).cards,
          if (g.getPile mv.fromP).cards.length - mv.nCards = 0 then 0
          else ucAdd (g.getPile mv.fromP).upCount
            ((if mv.flipsTopCard then 1 else 0) - (mv.nCards : Int))⟩ := by
  rw [makeMove_nonstock_eq g mv ht7 hf4 hks hns hlad hf13 ht13 hft]
  simp only [htab, Bool.false_eq_true, and_false, if_false]
  rw [ucAdd_zero _ hks]
  have hbase : g.kingSpaces =
      ((g.setPile mv.toP
          ⟨(g.getPile mv.toP).cards ++
              (g.getPile mv.fromP).cards.drop
                ((g.getPile mv.fromP).cards.length - mv.nCards),
            ucAdd (g.getPile mv.toP).upCount (mv.nCards : Int)⟩).setPile mv.fromP
        ⟨(g.getPile mv.fromP).cards.take ((g.getPile mv.fromP).cards.length - mv.nCards),
          if (g.getPile mv.fromP).cards.length - mv.nCards = 0 then 0
          else ucAdd (g.getPile mv.fromP).upCount
            ((if mv.flipsTopCard then 1 else 0) - (mv.nCards : Int))⟩).kingSpaces := by
    simp only [setPile_kingSpaces]
  rw [hbase, setKingSpaces_self]
  rw [unMakeMove_nontab_on_built g mv ht7 hf4 hns hlad htab hf13 ht13 hft]
  have hmlen : ((g.getPile mv.fromP).cards.drop
      ((g.getPile mv.fromP).cards.length - mv.nCards)).length = mv.nCards := by
    rw [List.length_drop]
    omega
  simp only [List.length_append, hmlen]
  have hsub : (g.getPile mv.toP).cards.length + mv.nCards - mv.nCards
      = (g.getPile mv.toP).cards.length := by omega
  rw [hsub, List.take_left, List.drop_left, List.take_append_drop]
  rw [ucAdd_cancel _ _ hupt]
  have heta1 : (⟨(g.getPile mv.toP).cards, (g.getPile mv.toP).upCount⟩ : Pile)
      = g.getPile mv.toP := rfl
  rw [heta1, setPile_getPile_self g ht13 ht7 hf4]

/-- The normal form of `Game::MakeMove` for a ladder move: the moved
cards go to the to pile, the newly exposed card of the from pile goes
to the ladder foundation pile, and the up counts and the king-space
counter are adjusted. -/
theorem makeMove_ladder_eq (X : Game) (mv : MoveSpec)
    (ht7 : X.tableau.length = 7) (hf4 : X.foundation.length = 4)
    (hks : X.kingSpaces < 256)
    (hns : mv.isStockMove = false) (hlad : mv.isLadderMove = true)
    (hf13 : mv.fromP < 13) (ht13 : mv.toP < 13) (hft : mv.fromP ≠ mv.toP)
    (hlf : mv.ladderPileCode ≠ mv.fromP) (hlt : mv.ladderPileCode ≠ mv.toP) :
    X.makeMove mv =
      (((X.setPile mv.toP
            ⟨(X.getPile mv.toP).cards ++
                (X.getPile mv.fromP).cards.drop
                  ((X.getPile mv.fromP).cards.length - mv.nCards),
              ucAdd (X.getPile mv.toP).upCount (mv.nCards : Int)⟩).setPile mv.fromP
          ⟨((X.getPile mv.fromP).cards.take
              ((X.getPile mv.fromP).cards.length - mv.nCards)).dropLast,
            if ((X.getPile mv.fromP).cards.take
                ((X.getPile mv.fromP).cards.length - mv.nCards)).dropLast.length = 0 then 0
            else ucAdd (X.getPile mv.fromP).upCount
              ((if mv.flipsTopCard then 1 else 0) - ((mv.nCards : Int) + 1))⟩).setPile
          mv.ladderPileCode
        ⟨(X.getPile mv.ladderPileCode).cards ++
            [((X.getPile mv.fromP).cards.take
                ((X.getPile mv.fromP).cards.length - mv.nCards)).getLastD default],
          (X.getPile mv.ladderPileCode).upCount⟩).setKingSpaces
      (ucAdd X.kingSpaces
        (if ((X.getPile mv.fromP).cards.take
              ((X.getPile mv.fromP).cards.length - mv.nCards)).dropLast.length = 0
            ∧ isTableauCode mv.fromP = true then 1 else 0)) := by
  have hns' : ¬ (mv.isStockMove = true) := by simp [hns]
  unfold Game.makeMove
  rw [if_neg hns']
  simp only [hlad, if_true]
  generalize hA0 : (⟨(X.getPile mv.toP).cards ++
      (X.getPile mv.fromP).cards.drop ((X.getPile mv.fromP).cards.length - mv.nCards),
    (X.getPile mv.toP).upCount⟩ : Pile) = A0
  generalize hB0 : (⟨(X.getPile mv.fromP).cards.take
      ((X.getPile mv.fromP).cards.length - mv.nCards),
    (X.getPile mv.fromP).upCount⟩ : Pile) = B0
  have hdt : (X.setPile mv.toP A0).tableau.length = 7 := by
    rw [setPile_tableau_length, ht7]
  have hdf : (X.setPile mv.toP A0).foundation.length = 4 := by
    rw [setPile_foundation_length, hf4]
  rw [getPile_setPile_self _ _ hf13 hdt hdf]
  rw [getPile_setPile_ne _ _ (Ne.symm hlf), getPile_setPile_ne _ _ (Ne.symm hlt)]
  generalize hL0 : (⟨(X.getPile mv.ladderPileCode).cards ++ [B0.back],
    (X.getPile mv.ladderPileCode).upCount⟩ : Pile) = L0
  generalize hB1 : (⟨B0.cards.dropLast, B0.upCount⟩ : Pile) = B1
  rw [getPile_setPile_ne _ _ hft, getPile_setPile_ne _ _ hlt, getPile_setPile_ne _ _ hft,
    getPile_setPile_self X _ ht13 ht7 hf4]
  generalize hA1 : (⟨A0.cards, ucAdd A0.upCount (mv.nCards : Int)⟩ : Pile) = A1
  have hdt2 : (((X.setPile mv.toP A0).setPile mv.fromP B0).setPile
      mv.ladderPileCode L0).tableau.length = 7 := by
    rw [setPile_tableau_length, setPile_tableau_length, setPile_tableau_length, ht7]
  have hdf2 : (((X.setPile mv.toP A0).setPile mv.fromP B0).setPile
      mv.ladderPileCode L0).foundation.length = 4 := by
    rw [setPile_foundation_length, setPile_foundation_length, setPile_foundation_length, hf4]
  rw [getPile_setPile_ne _ _ (Ne.symm hft), getPile_setPile_self _ _ hf13 hdt2 hdf2]
  by_cases hemp : B1.cards.length = 0
  · rw [if_neg (by omega : ¬ B1.cards.length ≠ 0)]
    simp only [setPile_kingSpaces, setKingSpaces_kingSpaces]
    rw [setKingSpaces_setPile]
    rw [setPile_comm _ _ _ hlf, setPile_setPile]
    rw [setPile_comm _ _ _ hlt, setPile_comm _ _ _ hft, setPile_setPile]
    rw [setPile_comm _ _ _ hlf, setPile_setPile]
    subst hA1
    subst hA0
    subst hB1
    subst hB0
    subst hL0
    simp only [Pile.back] at hemp ⊢
    simp only [List.length_dropLast, List.length_take] at hemp
    have hz : ((X.getPile mv.fromP).cards.take
        ((X.getPile mv.fromP).cards.length - mv.nCards)).dropLast.length = 0 := by
      rw [List.length_dropLast, List.length_take]
      omega
    rw [if_pos hz]
    by_cases htab : isTableauCode mv.fromP = true
    · rw [if_pos (And.intro hz htab), if_pos htab]
    · have hno : ¬(((X.getPile mv.fromP).cards.take
          ((X.getPile mv.fromP).cards.length - mv.nCards)).dropLast.length = 0
          ∧ isTableauCode mv.fromP = true) := fun hc => htab hc.2
      rw [if_neg hno, if_neg htab]
  · rw [if_pos hemp]
    rw [setPile_comm _ _ _ hlf, setPile_setPile]
    rw [setPile_comm _ _ _ hlt, setPile_comm _ _ _ hft, setPile_setPile]
    rw [setPile_comm _ _ _ hlf, setPile_setPile]
    subst hA1
    subst hA0
    subst hB1
    subst hB0
    subst hL0
    simp only [Pile.back] at hemp ⊢
    simp only [List.length_dropLast, List.length_take] at hemp
    have hz : ¬ ((X.getPile mv.fromP).cards.take
        ((X.getPile mv.fromP).cards.length - mv.nCards)).dropLast.length = 0 := by
      rw [List.length_dropLast, List.length_take]
      omega
    have hno : ¬(((X.getPile mv.fromP).cards.take
        ((X.getPile mv.fromP).cards.length - mv.nCards)).dropLast.length = 0
        ∧ isTableauCode mv.fromP = true) := fun hc => hz hc.1
    rw [if_neg hz, if_neg hno, ucAdd_zero _ hks]
    have hYks : X.kingSpaces =
        (((X.setPile mv.toP
            ⟨(X.getPile mv.toP).cards ++
                (X.getPile mv.fromP).cards.drop
                  ((X.getPile mv.fromP).cards.length - mv.nCards),
              ucAdd (X.getPile mv.toP).upCount (mv.nCards : Int)⟩).setPile mv.fromP
          ⟨((X.getPile mv.fromP).cards.take
              ((X.getPile mv.fromP).cards.length - mv.nCards)).dropLast,
            ucAdd (X.getPile mv.fromP).upCount
              ((if mv.flipsTopCard then 1 else 0) - ((mv.nCards : Int) + 1))⟩).setPile
          mv.ladderPileCode
        ⟨(X.getPile mv.ladderPileCode).cards ++
            [((X.getPile mv.fromP).cards.take
                ((X.getPile mv.fromP).cards.length - mv.nCards)).getLastD default],
          (X.getPile mv.ladderPileCode).upCount⟩).kingSpaces := by
      simp only [setPile_kingSpaces]
    rw [hYks, setKingSpaces_self]

/-- `Game::UnMakeMove` for a ladder move, applied to a state built by
three pile writes and a king-space write over a well-dimensioned
base. -/
theorem unMakeMove_ladder_on_built (g : Game) (mv : MoveSpec)
    (ht7 : g.tableau.length = 7) (hf4 : g.foundation.length = 4)
    (hns : mv.isStockMove = false) (hlad : mv.isLadderMove = true)
    (htab : isTableauCode mv.fromP = true)
    (hf13 : mv.fromP < 13) (ht13 : mv.toP < 13) (hl13 : mv.ladderPileCode < 13)
    (hft : mv.fromP ≠ mv.toP) (hlf : mv.ladderPileCode ≠ mv.fromP)
    (hlt : mv.ladderPileCode ≠ mv.toP)
    (A B L : Pile) (K : Nat) :
    ((((g.setPile mv.toP A).setPile mv.fromP B).setPile mv.ladderPileCode
        L).setKingSpaces K).unMakeMove mv
      = (((g.setPile mv.toP
            ⟨A.cards.take (A.cards.length - mv.nCards),
              ucAdd A.upCount (-(mv.nCards : Int))⟩).setPile mv.fromP
          ⟨(B.cards ++ [L.back]) ++ A.cards.drop (A.cards.length - mv.nCards),
            mv.fromUpCount⟩).setPile mv.ladderPileCode
          ⟨L.cards.dropLast, L.upCount⟩).setKingSpaces
        (ucAdd K (if B.cards.isEmpty then -1 else 0)) := by
  have hmt7 : ((((g.setPile mv.toP A).setPile mv.fromP B).setPile mv.ladderPileCode
      L).setKingSpaces K).tableau.length = 7 := by
    rw [setKingSpaces_tableau, setPile_tableau_length, setPile_tableau_length,
      setPile_tableau_length, ht7]
  have hmf4 : ((((g.setPile mv.toP A).setPile mv.fromP B).setPile mv.ladderPileCode
      L).setKingSpaces K).foundation.length = 4 := by
    rw [setKingSpaces_foundation, setPile_foundation_length, setPile_foundation_length,
      setPile_foundation_length, hf4]
  have hgf : ((((g.setPile mv.toP A).setPile mv.fromP B).setPile mv.ladderPileCode
      L).setKingSpaces K).getPile mv.fromP = B := by
    rw [getPile_setKingSpaces, getPile_setPile_ne _ _ hlf, getPile_setPile_self _ _ hf13
      ((setPile_lengths g mv.toP A).1.trans ht7) ((setPile_lengths g mv.toP A).2.trans hf4)]
  have hgl : ((((g.setPile mv.toP A).setPile mv.fromP B).setPile mv.ladderPileCode
      L).setKingSpaces K).getPile mv.ladderPileCode = L := by
    rw [getPile_setKingSpaces]
    refine getPile_setPile_self _ _ hl13 ?_ ?_
    · rw [setPile_tableau_length, setPile_tableau_length, ht7]
    · rw [setPile_foundation_length, setPile_foundation_length, hf4]
  have hgt : ((((g.setPile mv.toP A).setPile mv.fromP B).setPile mv.ladderPileCode
      L).setKingSpaces K).getPile mv.toP = A := by
    rw [getPile_setKingSpaces, getPile_setPile_ne _ _ hlt, getPile_setPile_ne _ _ hft,
      getPile_setPile_self g _ ht13 ht7 hf4]
  rw [unMakeMove_ladder_eq _ mv hmt7 hmf4 hns hlad htab hf13 hft hlf hlt]
  rw [hgf, hgl, hgt]
  simp only [setKingSpaces_setPile, setKingSpaces_setKingSpaces, setKingSpaces_kingSpaces]
  rw [setPile_comm _ _ _ hlf, setPile_setPile, setPile_setPile]
  rw [setPile_comm _ _ _ hlt, setPile_comm _ _ _ hft, setPile_setPile]

/-- Make/unmake round trip for a ladder move: the game is restored
exactly. -/
theorem roundTrip_ladder (g : Game) (mv : MoveSpec)
    (ht7 : g.tableau.length = 7) (hf4 : g.foundation.length = 4)
    (hks : g.kingSpaces < 256) (hupt : (g.getPile mv.toP).upCount < 256)
    (hns : mv.isStockMove = false) (hlad : mv.isLadderMove = true)
    (hf13 : mv.fromP < 13) (ht13 : mv.toP < 13) (hl13 : mv.ladderPileCode < 13)
    (hft : mv.fromP ≠ mv.toP) (hlf : mv.ladderPileCode ≠ mv.fromP)
    (hlt : mv.ladderPileCode ≠ mv.toP)
    (hn1 : 1 ≤ mv.nCards) (hlen : mv.nCards + 1 ≤ (g.getPile mv.fromP).cards.length)
    (hfup : mv.fromUpCount = (g.getPile mv.fromP).upCount) :
    (g.makeMove mv).unMakeMove mv = g := by
  have htab : isTableauCode mv.fromP = true := by
    unfold MoveSpec.isLadderMove at hlad
    exact (Bool.and_eq_true _ _ |>.mp hlad).1
  rw [makeMove_ladder_eq g mv ht7 hf4 hks hns hlad hf13 ht13 hft hlf hlt]
  rw [unMakeMove_ladder_on_built g mv ht7 hf4 hns hlad htab hf13 ht13 hl13 hft hlf hlt]
  have hmlen : ((g.getPile mv.fromP).cards.drop
      ((g.getPile mv.fromP).cards.length - mv.nCards)).length = mv.nCards := by
    rw [List.length_drop]
    omega
  simp only [Pile.back, List.length_append, hmlen, List.getLastD_concat,
    List.dropLast_concat]
  have hsub : (g.getPile mv.toP).cards.length + mv.nCards - mv.nCards
      = (g.getPile mv.toP).cards.length := by omega
  rw [hsub, List.take_left, List.drop_left]
  have htk : (g.getPile mv.fromP).cards.take
      ((g.getPile mv.fromP).cards.length - mv.nCards) ≠ [] := by
    intro hc
    have := congrArg List.length hc
    rw [List.length_take] at this
    simp only [List.length_nil] at this
    omega
  rw [dropLast_append_getLastD htk, List.take_append_drop]
  rw [ucAdd_cancel _ _ hupt, ← hfup]
  have heta1 : (⟨(g.getPile mv.toP).cards, (g.getPile mv.toP).upCount⟩ : Pile)
      = g.getPile mv.toP := rfl
  have heta2 : (⟨(g.getPile mv.fromP).cards, mv.fromUpCount⟩ : Pile)
      = g.getPile mv.fromP := by rw [hfup]
  have heta3 : (⟨(g.getPile mv.ladderPileCode).cards,
      (g.getPile mv.ladderPileCode).upCount⟩ : Pile) = g.getPile mv.ladderPileCode := rfl
  rw [heta1, heta2, heta3, setPile_getPile_self g ht13 ht7 hf4,
    setPile_getPile_self g hf13 ht7 hf4, setPile_getPile_self g hl13 ht7 hf4]
  by_cases hE : ((g.getPile mv.fromP).cards.take
      ((g.getPile mv.fromP).cards.length - mv.nCards)).dropLast.length = 0
  · rw [if_pos (And.intro hE htab)]
    have hie : ((g.getPile mv.fromP).cards.take
        ((g.getPile mv.fromP).cards.length - mv.nCards)).dropLast.isEmpty = true := by
      cases hk : ((g.getPile mv.fromP).cards.take
          ((g.getPile mv.fromP).cards.length - mv.nCards)).dropLast with
      | nil => rfl
      | cons a as =>
        exfalso
        rw [hk] at hE
        simp at hE
    rw [hie]
    simp only [if_true]
    have hm1 : (-1 : Int) = -(1 : Int) := rfl
    rw [hm1, ucAdd_cancel _ _ hks, setKingSpaces_self]
  · have hno : ¬(((g.getPile mv.fromP).cards.take
        ((g.getPile mv.fromP).cards.length - mv.nCards)).dropLast.length = 0
        ∧ isTableauCode mv.fromP = true) := fun hc => hE hc.1
    rw [if_neg hno]
    have hie : ((g.getPile mv.fromP).cards.take
        ((g.getPile mv.fromP).cards.length - mv.nCards)).dropLast.isEmpty = false := by
      cases hk : ((g.getPile mv.fromP).cards.take
          ((g.getPile mv.fromP).cards.length - mv.nCards)).dropLast with
      | nil => exact absurd (by rw [hk]; rfl) hE
      | cons a as => rfl
    rw [hie]
    simp only [Bool.false_eq_true, if_false]
    rw [ucAdd_zero _ hks, ucAdd_zero _ hks, setKingSpaces_self]

/-- Make/unmake round trip for a stock move, from the validity-style
preconditions on the draw count. -/
theorem roundTrip_stock (g : Game) (mv : MoveSpec) (hwf : g.WF) (h8 : mv.fromP = 8)
    (hpre : StockPre g mv) : (g.makeMove mv).unMakeMove mv = g := by
  obtain ⟨ht7, hf4, hks, hrc, hup⟩ := hwf
  obtain ⟨ht0, ht8, ht13, hdp, hdn, hw1⟩ := hpre
  rcases le_or_lt 0 mv.drawCount with hd | hd
  · have hk : mv.drawCount.toNat ≤ g.stock.cards.length := by
      have := hdp hd; omega
    have hdr := drawInt_nonneg g.waste g.stock mv.drawCount hd hk
    refine roundTrip_stock_core g mv h8 ht7 hf4 hrc (hup _ ht13) ht0 ht8 ht13
      (g.waste.cards ++ (g.stock.cards.drop (g.stock.cards.length - mv.drawCount.toNat)).reverse)
      (g.stock.cards.take (g.stock.cards.length - mv.drawCount.toNat)) hdr ?_ ?_
    · intro hemp
      have hl := congrArg List.length hemp
      simp only [List.length_append, List.length_reverse, List.length_drop,
        List.length_nil] at hl
      omega
    · rw [drawInt_nonneg _ _ _ hd]
      · have hlen : (g.waste.cards ++
            (g.stock.cards.drop (g.stock.cards.length - mv.drawCount.toNat)).reverse).length
            = g.waste.cards.length + mv.drawCount.toNat := by
          simp only [List.length_append, List.length_reverse, List.length_drop]
          omega
        rw [Prod.mk.injEq]
        constructor
        · rw [Pile.mk.injEq]
          refine ⟨?_, rfl⟩
          rw [hlen]
          have h1 : g.waste.cards.length + mv.drawCount.toNat - mv.drawCount.toNat
              = g.waste.cards.length := by omega
          rw [h1, List.drop_left, List.reverse_reverse, List.take_append_drop]
        · rw [Pile.mk.injEq]
          refine ⟨?_, rfl⟩
          rw [hlen]
          have h1 : g.waste.cards.length + mv.drawCount.toNat - mv.drawCount.toNat
              = g.waste.cards.length := by omega
          rw [h1, List.take_left]
      · simp only [List.length_append, List.length_reverse, List.length_drop]
        omega
  · have he : (-mv.drawCount).toNat ≤ g.waste.cards.length := by
      have := hdn hd; omega
    have hdr := drawInt_neg g.waste g.stock mv.drawCount hd he
    refine roundTrip_stock_core g mv h8 ht7 hf4 hrc (hup _ ht13) ht0 ht8 ht13
      (g.waste.cards.take (g.waste.cards.length - (-mv.drawCount).toNat))
      (g.stock.cards ++
        (g.waste.cards.drop (g.waste.cards.length - (-mv.drawCount).toNat)).reverse) hdr ?_ ?_
    · intro hemp
      have hl := congrArg List.length hemp
      simp only [List.length_take, List.length_nil] at hl
      have : 1 ≤ g.waste.cards.length - (-mv.drawCount).toNat := by omega
      omega
    · rw [drawInt_neg _ _ _ hd]
      · have hlen : (g.stock.cards ++
            (g.waste.cards.drop (g.waste.cards.length - (-mv.drawCount).toNat)).reverse).length
            = g.stock.cards.length + (-mv.drawCount).toNat := by
          simp only [List.length_append, List.length_reverse, List.length_drop]
          omega
        rw [Prod.mk.injEq]
        constructor
        · rw [Pile.mk.injEq]
          refine ⟨?_, rfl⟩
          rw [hlen]
          have h1 : g.stock.cards.length + (-mv.drawCount).toNat - (-mv.drawCount).toNat
              = g.stock.cards.length := by omega
          rw [h1, List.take_left]
        · rw [Pile.mk.injEq]
          refine ⟨?_, rfl⟩
          rw [hlen]
          have h1 : g.stock.cards.length + (-mv.drawCount).toNat - (-mv.drawCount).toNat
              = g.stock.cards.length := by omega
          rw [h1, List.drop_left, List.reverse_reverse, List.take_append_drop]
      · simp only [List.length_append, List.length_reverse, List.length_drop]
        omega

/-- The make/unmake round trip, case-analysed over the move variants:
it is the identity for stock moves and moves from a tableau pile; for a
move from the waste or a foundation pile everything is restored except
the from pile's up count, which keeps the value `MakeMove` wrote. -/
theorem roundTrip_cases (g : Game) (mv : MoveSpec) (hwf : g.WF) (hpre : MovePre g mv) :
    ((mv.isStockMove = true ∨ isTableauCode mv.fromP = true) →
      (g.makeMove mv).unMakeMove mv = g) ∧
    (mv.isStockMove = false → isTableauCode mv.fromP = false →
      (g.makeMove mv).unMakeMove mv
        = g.setPile mv.fromP ⟨(g.getPile mv.fromP).cards,
            if (g.getPile mv.fromP).cards.length - mv.nCards = 0 then 0
            else ucAdd (g.getPile mv.fromP).upCount
              ((if mv.flipsTopCard then 1 else 0) - (mv.nCards : Int))⟩) := by
  obtain ⟨ht7, hf4, hks, hrc, hup⟩ := hwf
  unfold MovePre at hpre
  cases hsmb : mv.isStockMove with
  | true =>
    rw [if_pos hsmb] at hpre
    have h8 : mv.fromP = 8 := by
      have hx := hsmb
      unfold MoveSpec.isStockMove at hx
      simpa using hx
    constructor
    · intro _
      exact roundTrip_stock g mv ⟨ht7, hf4, hks, hrc, hup⟩ h8 hpre
    · intro hc
      exact absurd hc (by decide)
  | false =>
    rw [if_neg (by rw [hsmb]; decide)] at hpre
    obtain ⟨hf13, ht13, hft, hf8, hn1, hlen, hfup, hsuit⟩ := hpre
    have hupt : (g.getPile mv.toP).upCount < 256 := hup mv.toP ht13
    cases hladb : mv.isLadderMove with
    | true =>
      have htab : isTableauCode mv.fromP = true := by
        unfold MoveSpec.isLadderMove at hladb
        exact (Bool.and_eq_true _ _ |>.mp hladb).1
      obtain ⟨hs4, hlt⟩ := hsuit hladb
      have hfrange : 1 ≤ mv.fromP ∧ mv.fromP < 8 := by
        unfold isTableauCode at htab
        simp only [Bool.and_eq_true, decide_eq_true_eq] at htab
        omega
      have hl13 : mv.ladderPileCode < 13 := by
        unfold MoveSpec.ladderPileCode
        omega
      have hlf : mv.ladderPileCode ≠ mv.fromP := by
        unfold MoveSpec.ladderPileCode
        omega
      have hlen' : mv.nCards + 1 ≤ (g.getPile mv.fromP).cards.length := by
        rw [hladb] at hlen
        simpa using hlen
      constructor
      · intro _
        exact roundTrip_ladder g mv ht7 hf4 hks hupt hsmb hladb hf13 ht13 hl13 hft hlf hlt
          hn1 hlen' (hfup htab)
      · intro _ hc
        exact absurd (htab.symm.trans hc) (by decide)
    | false =>
      have hlen' : mv.nCards ≤ (g.getPile mv.fromP).cards.length := by
        rw [hladb] at hlen
        simpa using hlen
      cases htabb : isTableauCode mv.fromP with
      | true =>
        constructor
        · intro _
          exact roundTrip_tab g mv ht7 hf4 hks hupt hsmb hladb htabb hf13 ht13 hft
            hn1 hlen' (hfup htabb)
        · intro _ hc
          exact absurd hc (by decide)
      | false =>
        constructor
        · intro hor
          cases hor with
          | inl hc => exact absurd hc (by decide)
          | inr hc => exact absurd hc (by decide)
        · intro _ _
          exact roundTrip_nontab g mv ht7 hf4 hks hupt hsmb hladb htabb hf13 ht13 hft
            hn1 hlen'

set_option maxRecDepth 8000 in
/-- C1 (counterexample): in the state reached from the deal of `deckC1`
by one draw-3 stock move, moving the top waste card to a foundation
pile and unmaking it does NOT restore the state: `UnMakeMove` only
restores the up count of tableau from piles, so the waste pile's up
count keeps the value `0 - 1` mod 256 = 255 that `MakeMove` wrote,
instead of its original 0. -/
theorem C1_roundtrip_counterexample :
    Game.ReachableFrom gameC1 gameC1b ∧
    gameC1b.isValid mC1 = true ∧
    (gameC1b.makeMove mC1).unMakeMove mC1 ≠ gameC1b ∧
    ((gameC1b.makeMove mC1).unMakeMove mC1).waste.upCount = 255 ∧
    gameC1b.waste.upCount = 0 := by
  refine ⟨?_, by decide, by decide, by decide, by decide⟩
  exact Game.ReachableFrom.step gameC1 mStockC1 Game.ReachableFrom.base (by decide)

/-- C1 (amended): for every well-formed state and meaningful move, the
make/unmake round trip restores every pile's cards, and restores the
full state whenever the move comes from the stock or a tableau pile;
for a move from the waste or a foundation pile the from pile's up
count is the only component that may change. -/
theorem C1_roundtrip_amended (g : Game) (mv : MoveSpec) (hwf : g.WF) (hpre : MovePre g mv) :
    (∃ u : Nat, (g.makeMove mv).unMakeMove mv
        = g.setPile mv.fromP ⟨(g.getPile mv.fromP).cards, u⟩) ∧
    ((mv.isStockMove = true ∨ isTableauCode mv.fromP = true) →
      (g.makeMove mv).unMakeMove mv = g) := by
  have hcases := roundTrip_cases g mv hwf hpre
  refine ⟨?_, hcases.1⟩
  have hf13 : mv.fromP < 13 := by
    unfold MovePre at hpre
    cases hsmb : mv.isStockMove with
    | true =>
      have h8 : mv.fromP = 8 := by
        have hx := hsmb
        unfold MoveSpec.isStockMove at hx
        simpa using hx
      omega
    | false =>
      rw [if_neg (by rw [hsmb]; decide)] at hpre
      exact hpre.1
  cases hsmb : mv.isStockMove with
  | true =>
    refine ⟨(g.getPile mv.fromP).upCount, ?_⟩
    rw [hcases.1 (Or.inl hsmb)]
    exact (setPile_getPile_self g hf13 hwf.1 hwf.2.1).symm
  | false =>
    cases htabb : isTableauCode mv.fromP with
    | true =>
      refine ⟨(g.getPile mv.fromP).upCount, ?_⟩
      rw [hcases.1 (Or.inr htabb)]
      exact (setPile_getPile_self g hf13 hwf.1 hwf.2.1).symm
    | false =>
      exact ⟨_, hcases.2 hsmb htabb⟩

set_option maxRecDepth 8000 in
/-- C1 (witness): the amended round-trip theorem applies to the
concrete counterexample game and its stock move, which restore the
state exactly. -/
theorem C1_roundtrip_amended_witness :
    gameC1.WF ∧ MovePre gameC1 mStockC1 ∧
    (gameC1.makeMove mStockC1).unMakeMove mStockC1 = gameC1 :=
  ⟨by decide, by decide,
    (C1_roundtrip_amended gameC1 mStockC1 (by decide) (by decide)).2 (Or.inl (by decide))⟩

theorem dealRow_nil (piles : List Pile) (icd : Nat) : dealRow (piles, []) icd = (piles, []) := rfl

theorem dealRow_cons (piles : List Pile) (c : Card) (rest : List Card) (icd : Nat) :
    dealRow (piles, c :: rest) icd
      = (piles.set icd
          ⟨(piles.getD icd default).cards ++ [c], (piles.getD icd default).upCount⟩, rest) := rfl

theorem dealRow_fst_length (piles : List Pile) (cards : List Card) (icd : Nat) :
    (dealRow (piles, cards) icd).1.length = piles.length := by
  cases cards with
  | nil => rfl
  | cons c rest =>
    rw [dealRow_cons]
    exact length_set_eq piles icd _

theorem dealRow_fst_getD (piles : List Pile) (cards : List Card) (icd j : Nat) (h : j ≠ icd) :
    (dealRow (piles, cards) icd).1.getD j default = piles.getD j default := by
  cases cards with
  | nil => rfl
  | cons c rest =>
    rw [dealRow_cons]
    exact getD_set_ne piles _ default (Ne.symm h)

theorem dealFold_fst_length (L : List Nat) : ∀ (piles : List Pile) (cards : List Card),
    (L.foldl dealRow (piles, cards)).1.length = piles.length := by
  induction L with
  | nil =>
    intro piles cards
    rfl
  | cons x xs ih =>
    intro piles cards
    rw [List.foldl_cons]
    exact (ih (dealRow (piles, cards) x).1 (dealRow (piles, cards) x).2).trans
      (dealRow_fst_length piles cards x)

theorem dealFold_fst_getD (L : List Nat) (j : Nat) : ∀ (piles : List Pile) (cards : List Card),
    (∀ x ∈ L, x ≠ j) →
    (L.foldl dealRow (piles, cards)).1.getD j default = piles.getD j default := by
  induction L with
  | nil =>
    intro piles cards _
    rfl
  | cons x xs ih =>
    intro piles cards hb
    rw [List.foldl_cons]
    refine ((ih (dealRow (piles, cards) x).1 (dealRow (piles, cards) x).2 ?_).trans
      (dealRow_fst_getD piles cards x j ?_))
    · intro y hy
      exact hb y (List.mem_cons_of_mem _ hy)
    · exact fun he => hb x (List.mem_cons_self x xs) he.symm

/-- The outer loop of `Deal`: the pile list keeps its seven entries and
the king-space accumulator counts the rounds whose pile ends with a
king at its base. -/
theorem dealSteps_spec (deck : List Card) : ∀ (k : Nat), k ≤ 7 →
    ((List.range k).foldl dealStep (List.replicate 7 default, deck, 0)).1.length = 7 ∧
    ((List.range k).foldl dealStep (List.replicate 7 default, deck, 0)).2.2
      = (List.range k).countP (fun j =>
          ((((List.range k).foldl dealStep (List.replicate 7 default, deck, 0)).1.getD j
              default).cards.getD 0 default).rank == 12) := by
  intro k
  induction k with
  | zero =>
    intro _
    constructor
    · simp
    · rfl
  | succ m ih =>
    intro hk
    obtain ⟨ihl, ihk⟩ := ih (by omega)
    rw [List.range_succ, List.foldl_append, List.foldl_cons, List.foldl_nil]
    set S := (List.range m).foldl dealStep (List.replicate 7 default, deck, 0) with hS
    unfold dealStep
    simp only []
    set inner := (List.range' m (7 - m)).foldl dealRow (S.1, S.2.1) with hinner
    have hinlen : inner.1.length = 7 := by
      rw [hinner]
      exact (dealFold_fst_length _ S.1 S.2.1).trans ihl
    have hsetlen : (inner.1.set m
        ⟨(inner.1.getD m default).cards, 1⟩ : List Pile).length = 7 := by
      rw [length_set_eq]
      exact hinlen
    refine ⟨hsetlen, ?_⟩
    rw [List.countP_append]
    have hm7 : m < 7 := by omega
    have hgm : (inner.1.set m ⟨(inner.1.getD m default).cards, 1⟩ : List Pile).getD m default
        = ⟨(inner.1.getD m default).cards, 1⟩ := by
      refine getD_set_self inner.1 m _ default ?_
      omega
    have hcongr : (List.range m).countP (fun j =>
          (((inner.1.set m ⟨(inner.1.getD m default).cards, 1⟩ : List Pile).getD j
              default).cards.getD 0 default).rank == 12)
        = (List.range m).countP (fun j =>
          ((S.1.getD j default).cards.getD 0 default).rank == 12) := by
      refine List.countP_congr ?_
      intro j hj
      have hjm : j < m := List.mem_range.mp hj
      have h1 : (inner.1.set m ⟨(inner.1.getD m default).cards, 1⟩ : List Pile).getD j default
          = inner.1.getD j default :=
        getD_set_ne inner.1 _ default (by omega)
      have h2 : inner.1.getD j default = S.1.getD j default := by
        rw [hinner]
        refine dealFold_fst_getD _ j S.1 S.2.1 ?_
        intro x hx
        have := (List.mem_range'_1.mp hx).1
        omega
      rw [h1, h2]
    rw [hcongr, ← ihk]
    have hsingle : [m].countP (fun j =>
          (((inner.1.set m ⟨(inner.1.getD m default).cards, 1⟩ : List Pile).getD j
              default).cards.getD 0 default).rank == 12)
        = if ((inner.1.getD m default).cards.getD 0 default).rank == 12 then 1 else 0 := by
      rw [List.countP_cons, List.countP_nil, hgm]
      simp
    rw [hsingle]

/-- Index-based king counting agrees with the pile filter used by
`kingBottomCount` (an empty pile's default bottom card has the
out-of-range rank 13). -/
theorem countP_getD_piles (l : List Pile) : ∀ (n : Nat), l.length = n →
    (List.range n).countP (fun j => ((l.getD j default).cards.getD 0 default).rank == 12)
      = l.countP (fun p => !p.cards.isEmpty && ((p.cards.getD 0 default).rank == 12)) := by
  induction l with
  | nil =>
    intro n hn
    have : n = 0 := by simpa using hn.symm
    rw [this]
    rfl
  | cons p ps ih =>
    intro n hn
    cases n with
    | zero => exact absurd hn (by simp)
    | succ m =>
      have hm : ps.length = m := by simpa using hn
      rw [List.range_succ_eq_map, List.countP_cons, List.countP_map, List.countP_cons]
      have hcomp : ((fun j => (((p :: ps).getD j default).cards.getD 0 default).rank == 12)
            ∘ Nat.succ)
          = (fun j => ((ps.getD j default).cards.getD 0 default).rank == 12) := rfl
      rw [hcomp, ih m hm]
      have hpt : (!p.cards.isEmpty && ((p.cards.getD 0 default).rank == 12))
          = ((((p :: ps).getD 0 default).cards.getD 0 default).rank == 12) := by
        have hg0 : ((p :: ps).getD 0 default) = p := rfl
        rw [hg0]
        cases p.cards with
        | nil => rfl
        | cons c cs => rfl
      rw [hpt]

/-- `Deal` leaves `kingSpaces` equal to the number of tableau columns
whose bottom card is a king. -/
theorem deal_kingSpaces_eq (g : Game) : g.deal.kingSpaces = g.deal.kingBottomCount := by
  unfold Game.deal Game.kingBottomCount
  simp only []
  obtain ⟨hl, hk⟩ := dealSteps_spec g.deck 7 (by omega)
  rw [hk, ← List.countP_eq_length_filter]
  exact countP_getD_piles _ 7 hl

set_option maxRecDepth 8000 in
/-- C8 (counterexample): the deal of `deckC8` (king of clubs at the
base of the first tableau column) is a reachable state whose
`kingSpaces` counter is 1, while the number of empty tableau columns is
0 -- `kingSpaces` counts king-bottomed columns at the deal, not empty
columns. -/
theorem C8_kingSpaces_counterexample :
    Game.ReachableFrom gameC8 gameC8 ∧
    gameC8.kingSpaces = 1 ∧ gameC8.emptyTableauCount = 0 ∧ gameC8.kingBottomCount = 1 :=
  ⟨Game.ReachableFrom.base, by decide, by decide, by decide⟩

/-- C8 (amended): `Deal` sets `kingSpaces` to the number of tableau
columns whose bottom card is a king (not to the number of empty
columns); afterwards the counter is maintained by every move class:
a non-stock, non-ladder `MakeMove` adds 1 (mod 256) exactly when it
empties a tableau from pile, and `UnMakeMove` subtracts 1 (mod 256)
exactly when its tableau from pile is found empty, leaving the counter
untouched for waste or foundation from piles; a ladder `MakeMove`
follows the same law, adding 1 (mod 256) exactly when the from pile is
emptied after the ladder card also leaves it, and its `UnMakeMove`
subtracts 1 (mod 256) exactly when the tableau from pile is found
empty; stock moves never touch the counter, in either direction. -/
theorem C8_kingSpaces_amended (deck : List Card) (draw limit : Nat) (g : Game) (mv : MoveSpec)
    (ht7 : g.tableau.length = 7) (hf4 : g.foundation.length = 4) (hks : g.kingSpaces < 256)
    (hf13 : mv.fromP < 13) (ht13 : mv.toP < 13) (hft : mv.fromP ≠ mv.toP) :
    (Game.new deck draw limit).kingSpaces = (Game.new deck draw limit).kingBottomCount ∧
    (mv.isStockMove = false → mv.isLadderMove = false →
      (g.makeMove mv).kingSpaces
        = ucAdd g.kingSpaces
            (if (g.getPile mv.fromP).cards.length - mv.nCards = 0
                ∧ isTableauCode mv.fromP = true
              then 1 else 0)) ∧
    (mv.isStockMove = false → mv.isLadderMove = false → isTableauCode mv.fromP = true →
      (g.unMakeMove mv).kingSpaces
        = ucAdd g.kingSpaces (if (g.getPile mv.fromP).cards.isEmpty then -1 else 0)) ∧
    (mv.isStockMove = false → mv.isLadderMove = false → isTableauCode mv.fromP = false →
      (g.unMakeMove mv).kingSpaces = g.kingSpaces) ∧
    (mv.isStockMove = false → mv.isLadderMove = true →
      mv.ladderPileCode ≠ mv.fromP → mv.ladderPileCode ≠ mv.toP →
      (g.makeMove mv).kingSpaces
        = ucAdd g.kingSpaces
            (if ((g.getPile mv.fromP).cards.take
                  ((g.getPile mv.fromP).cards.length - mv.nCards)).dropLast.length = 0
                ∧ isTableauCode mv.fromP = true
              then 1 else 0)) ∧
    (mv.isStockMove = false → mv.isLadderMove = true → isTableauCode mv.fromP = true →
      mv.ladderPileCode ≠ mv.fromP → mv.ladderPileCode ≠ mv.toP →
      (g.unMakeMove mv).kingSpaces
        = ucAdd g.kingSpaces (if (g.getPile mv.fromP).cards.isEmpty then -1 else 0)) ∧
    (mv.isStockMove = true → mv.toP ≠ 0 → mv.toP ≠ 8 →
      (g.makeMove mv).kingSpaces = g.kingSpaces ∧
      (g.unMakeMove mv).kingSpaces = g.kingSpaces) := by
  refine ⟨?_, ?_, ?_, ?_, ?_, ?_, ?_⟩
  · unfold Game.new
    exact deal_kingSpaces_eq _
  · intro hns hlad
    rw [makeMove_nonstock_eq g mv ht7 hf4 hks hns hlad hf13 ht13 hft,
      setKingSpaces_kingSpaces]
  · intro hns hlad htab
    rw [unMakeMove_tab_eq g mv ht7 hf4 hns hlad htab hf13 hft, setKingSpaces_kingSpaces]
  · intro hns hlad htab
    rw [unMakeMove_nontab_eq g mv hns hlad htab, setPile_kingSpaces, setPile_kingSpaces]
  · intro hns hlad hlf hlt
    rw [makeMove_ladder_eq g mv ht7 hf4 hks hns hlad hf13 ht13 hft hlf hlt,
      setKingSpaces_kingSpaces]
  · intro hns hlad htab hlf hlt
    rw [unMakeMove_ladder_eq g mv ht7 hf4 hns hlad htab hf13 hft hlf hlt,
      setKingSpaces_kingSpaces]
  · intro hsm h0 h8
    constructor
    · rw [makeMove_stock_eq g mv hsm h0 h8, setRecycleCount_kingSpaces,
        setStock_kingSpaces, setWaste_kingSpaces, setPile_kingSpaces]
    · rw [unMakeMove_stock_eq g mv hsm h0 h8, setRecycleCount_kingSpaces,
        setStock_kingSpaces, setWaste_kingSpaces, setPile_kingSpaces]

set_option maxRecDepth 8000 in
/-- C8 (witness): the amended king-space theorem applied to the
counterexample deal and a concrete tableau-to-foundation move. -/
theorem C8_kingSpaces_amended_witness :
    gameC8.tableau.length = 7 ∧
    (Game.new deckC8 1 255).kingSpaces = (Game.new deckC8 1 255).kingBottomCount :=
  ⟨by decide, (C8_kingSpaces_amended deckC8 1 255 gameC8 (NonStockMove 1 10 1 1)
    (by decide) (by decide) (by decide) (by decide) (by decide) (by decide)).1⟩

theorem listSwap_length (l : List Card) (i j : Nat) : (listSwap l i j).length = l.length := by
  unfold listSwap
  rw [length_set_eq, length_set_eq]

theorem shuffleLoop_length (count : Nat) : ∀ (d : Nat → Nat) (deck : List Card) (i : Nat),
    (shuffleLoop d deck i count).length = deck.length := by
  induction count with
  | zero =>
    intro d deck i
    rfl
  | succ m ih =>
    intro d deck i
    unfold shuffleLoop
    rw [ih]
    exact listSwap_length deck i (d i)

theorem shuffleLoop_congr (count : Nat) : ∀ (d1 d2 : Nat → Nat) (deck : List Card) (i : Nat),
    (∀ k, i ≤ k → k < i + count → d1 k = d2 k) →
    shuffleLoop d1 deck i count = shuffleLoop d2 deck i count := by
  induction count with
  | zero =>
    intro d1 d2 deck i _
    rfl
  | succ m ih =>
    intro d1 d2 deck i h
    unfold shuffleLoop
    rw [h i (le_refl i) (by omega)]
    exact ih d1 d2 _ (i + 1) (fun k hk1 hk2 => h k (by omega) (by omega))

/-- C9: when all four foundation piles hold 13 cards, `AvailableMoves`
returns the empty list, for any move history and any cache state. -/
theorem C9_gameOver_empty_moves (g : Game) (movesMade domCache : List MoveSpec)
    (hf4 : g.foundation.length = 4) (hover : g.gameOver = true) :
    (g.availableMoves movesMade domCache).1 = [] := by
  have hmin : g.minFoundationPileSize = 13 := by
    unfold Game.minFoundationPileSize
    unfold Game.gameOver at hover
    generalize hF : g.foundation = F at hover hf4 ⊢
    obtain ⟨a, b, c, d, hFe⟩ : ∃ a b c d, F = [a, b, c, d] := by
      rcases F with _ | ⟨a, _ | ⟨b, _ | ⟨c, _ | ⟨d, _ | ⟨e, r⟩⟩⟩⟩⟩ <;> simp at hf4
      exact ⟨_, _, _, _, rfl⟩
    rw [hFe] at hover ⊢
    simp only [List.all_cons, List.all_nil, Bool.and_eq_true, beq_iff_eq, and_true] at hover
    simp only [List.map]
    rw [hover.1, hover.2.1, hover.2.2.1, hover.2.2.2]
    rfl
  unfold Game.availableMoves
  simp only []
  rw [hmin]
  rfl

/-- C9 (witness): the degenerate fully-won game yields no moves. -/
theorem C9_gameOver_empty_moves_witness :
    gameWon.foundation.length = 4 ∧ gameWon.gameOver = true ∧
    (gameWon.availableMoves [] []).1 = [] :=
  ⟨by decide, by decide, C9_gameOver_empty_moves gameWon [] [] (by decide) (by decide)⟩

/-- C3: `IsShortPathToState` inserts a new key with its move count and
answers true; on a present key it answers true and overwrites exactly
when the new count is strictly smaller, else answers false and leaves
the store unchanged. -/
theorem C3_isShortPathToState_upsert (states : List GameState) (g1 g2 : Game) (m1 m2 : Nat)
    (hkey : GameState.keyEqb (GameState.ofGame g2 m2) (GameState.ofGame g1 m1) = true)
    (hnew : states.find? (GameState.keyEqb (GameState.ofGame g1 m1)) = none) :
    (isShortPathToState states g1 m1).1 = true ∧
    (isShortPathToState states g1 m1).2 = GameState.ofGame g1 m1 :: states ∧
    (m1 ≤ m2 →
      (isShortPathToState (GameState.ofGame g1 m1 :: states) g2 m2).1 = false ∧
      (isShortPathToState (GameState.ofGame g1 m1 :: states) g2 m2).2
        = GameState.ofGame g1 m1 :: states) ∧
    (m2 < m1 →
      (isShortPathToState (GameState.ofGame g1 m1 :: states) g2 m2).1 = true ∧
      (isShortPathToState (GameState.ofGame g1 m1 :: states) g2 m2).2
        = { GameState.ofGame g1 m1 with moveCount := m2 } :: states) := by
  have hfind : (GameState.ofGame g1 m1 :: states).find?
      (GameState.keyEqb (GameState.ofGame g2 m2)) = some (GameState.ofGame g1 m1) :=
    List.find?_cons_of_pos _ hkey
  have hmc : (GameState.ofGame g1 m1).moveCount = m1 := rfl
  refine ⟨?_, ?_, ?_, ?_⟩
  · unfold isShortPathToState
    simp only []
    rw [hnew]
  · unfold isShortPathToState
    simp only []
    rw [hnew]
  · intro hle
    unfold isShortPathToState
    simp only []
    rw [hfind]
    simp only [hmc]
    rw [if_neg (by omega : ¬ m2 < m1)]
    exact ⟨rfl, rfl⟩
  · intro hlt
    unfold isShortPathToState
    simp only []
    rw [hfind]
    simp only [hmc]
    rw [if_pos hlt]
    refine ⟨rfl, ?_⟩
    show updateKey (GameState.ofGame g2 m2) m2 (GameState.ofGame g1 m1 :: states) = _
    unfold updateKey
    rw [if_pos hkey]

set_option maxRecDepth 8000 in
/-- C3 (witness): the upsert behaviour on a concrete store -- insert at
count 5, then a revisit at count 3 succeeds. -/
theorem C3_isShortPathToState_upsert_witness :
    GameState.keyEqb (GameState.ofGame gameWon 3) (GameState.ofGame gameWon 5) = true ∧
    ([] : List GameState).find? (GameState.keyEqb (GameState.ofGame gameWon 5)) = none ∧
    (isShortPathToState [] gameWon 5).1 = true ∧
    (isShortPathToState (GameState.ofGame gameWon 5 :: []) gameWon 3).1 = true := by
  have h := C3_isShortPathToState_upsert [] gameWon gameWon 5 3 (by decide) (by decide)
  exact ⟨by decide, by decide, h.1, (h.2.2.2 (by omega)).1⟩

set_option maxRecDepth 8000 in
/-- C4 (counterexample): two states that are NOT related by a tableau
permutation (their single occupied piles hold different face-down
cards) still get equal canonical keys, because `DeflateTableau` encodes
only the face-up portion of a pile. -/
theorem C4_key_counterexample :
    ¬ TableauPermEquiv gA4 gB4 ∧
    GameState.keyEqb (GameState.ofGame gA4 0) (GameState.ofGame gB4 0) = true :=
  ⟨by decide, by decide⟩

/-- C4 (amended): a tableau permutation of otherwise equal states gives
equal canonical keys, for any move counts -- the move count is not part
of the key; the converse direction of the claim is false. -/
theorem C4_key_amended (g1 g2 : Game) (m1 m2 : Nat) (h : TableauPermEquiv g1 g2) :
    GameState.keyEqb (GameState.ofGame g1 m1) (GameState.ofGame g2 m2) = true := by
  obtain ⟨hperm, hw, hs, hf, hd, hrl, hrc⟩ := h
  have hsorted : (g1.tableau.map DeflateTableau).insertionSort (· ≤ ·)
      = (g2.tableau.map DeflateTableau).insertionSort (· ≤ ·) := by
    refine List.eq_of_perm_of_sorted ?_ (List.sorted_insertionSort _ _)
      (List.sorted_insertionSort _ _)
    exact (List.perm_insertionSort _ _).trans ((hperm.map _).trans
      (List.perm_insertionSort _ _).symm)
  unfold GameState.ofGame GameState.keyEqb
  simp only [hsorted, hf, hs]
  simp

set_option maxRecDepth 8000 in
/-- C4 (witness): the amended key theorem at a concrete state, with two
different move counts. -/
theorem C4_key_amended_witness :
    TableauPermEquiv gameC8 gameC8 ∧
    GameState.keyEqb (GameState.ofGame gameC8 3) (GameState.ofGame gameC8 7) = true :=
  ⟨by decide, C4_key_amended gameC8 gameC8 3 7 (by decide)⟩

set_option maxRecDepth 8000 in
/-- C5 (counterexample): the swap loop of `Shuffle` runs for
`i = 0 .. n-3` (the C++ loop condition is `i < n - 2`), not for every
`i` in `0..n-2` inclusive as the claim says: a draw stream whose
iteration-50 draw answers 51 gives different decks under the two
readings, and the code's deck does not depend on that draw at all. -/
theorem C5_shuffle_counterexample :
    NumberedDeal drawsC5 ≠ NumberedDealClaimC5 drawsC5 ∧
    NumberedDeal drawsC5 = NumberedDeal (fun k => k) :=
  ⟨by decide, by decide⟩

/-- C5 (amended): `Shuffle` swaps positions `i = 0 .. n-3` with the
drawn positions; it consults only the draws for those iterations (so
equal seeds give equal decks), and it preserves the deck's length. -/
theorem C5_shuffle_amended (deck : List Card) (draws draws2 : Nat → Nat)
    (h2 : 2 ≤ deck.length) (hagree : ∀ k, k < deck.length - 2 → draws k = draws2 k) :
    Shuffle deck draws = shuffleLoop draws deck 0 (deck.length - 2) ∧
    Shuffle deck draws = Shuffle deck draws2 ∧
    (Shuffle deck draws).length = deck.length := by
  have h1 : Shuffle deck draws = shuffleLoop draws deck 0 (deck.length - 2) := by
    unfold Shuffle
    rw [if_neg (by omega)]
  refine ⟨h1, ?_, ?_⟩
  · rw [h1]
    unfold Shuffle
    rw [if_neg (by omega)]
    exact shuffleLoop_congr _ _ _ deck 0 (fun k hk1 hk2 => hagree k (by omega))
  · rw [h1]
    exact shuffleLoop_length _ _ deck 0

set_option maxRecDepth 8000 in
/-- C5 (witness): the amended theorem on the 52-card numbered deck
shows the deck ignores the draws beyond iteration 49. -/
theorem C5_shuffle_amended_witness :
    2 ≤ ((List.range 52).map Card.ofValue).length ∧
    NumberedDeal drawsC5 = NumberedDeal (fun k => k) := by
  refine ⟨by decide, ?_⟩
  have h := C5_shuffle_amended ((List.range 52).map Card.ofValue) drawsC5 (fun k => k)
    (by decide) ?_
  · exact h.2.1
  · intro k hk
    unfold drawsC5
    simp only [List.length_map, List.length_range] at hk
    rw [if_neg (by omega)]

set_option maxRecDepth 8000 in
/-- C10: the card codec round-trips for all 52 cards: parsing the
rendered string returns the card, in its lower-case, upper-case and
rank-first forms. -/
theorem C10_codec_roundtrip (c : Card) (hs : c.suit < 4) (hr : c.rank < 13) :
    CardFromString c.asString = some c ∧
    CardFromString (c.asString.map upperCh) = some c ∧
    CardFromString c.asString.reverse = some c := by
  have hv : ∀ v, v < 52 →
      (CardFromString (Card.ofValue v).asString = some (Card.ofValue v) ∧
       CardFromString ((Card.ofValue v).asString.map upperCh) = some (Card.ofValue v) ∧
       CardFromString (Card.ofValue v).asString.reverse = some (Card.ofValue v)) := by decide
  have hc : c = Card.ofValue (13 * c.suit + c.rank) := by
    unfold Card.ofValue
    cases c with
    | mk s r =>
      simp only [] at hs hr
      simp only [Card.mk.injEq]
      constructor <;> omega
  rw [hc]
  exact hv _ (by omega)

/-- C10 (witness): the round trip at the ace of clubs. -/
theorem C10_codec_roundtrip_witness :
    (⟨0, 0⟩ : Card).suit < 4 ∧ (⟨0, 0⟩ : Card).rank < 13 ∧
    CardFromString (Card.asString ⟨0, 0⟩) = some ⟨0, 0⟩ :=
  ⟨by decide, by decide, (C10_codec_roundtrip ⟨0, 0⟩ (by decide) (by decide)).1⟩

theorem setKingSpaces_drawSetting (g : Game) (k : Nat) :
    (g.setKingSpaces k).drawSetting = g.drawSetting := rfl

theorem setPile_zero_waste (g : Game) (p : Pile) : (g.setPile 0 p).waste = p := rfl

theorem setPile_tableau (g : Game) (i : Nat) (p : Pile) (h : ¬(1 ≤ i ∧ i ≤ 7)) :
    (g.setPile i p).tableau = g.tableau := by
  unfold Game.setPile
  split_ifs <;> first | rfl | omega

theorem misorderAux_append (l : List Card) (c : Card) : ∀ (mins : Nat → Nat),
    misorderAux mins (l ++ [c])
      = misorderAux mins l + (if c.rank < scanMins mins l c.suit then 0 else 1) := by
  induction l with
  | nil =>
    intro mins
    rw [List.nil_append]
    unfold misorderAux scanMins
    by_cases h : c.rank < mins c.suit
    · rw [if_pos h, if_pos h]
      rfl
    · rw [if_neg h, if_neg h]
      rfl
  | cons d rest ih =>
    intro mins
    rw [List.cons_append]
    unfold misorderAux scanMins
    by_cases hd : d.rank < mins d.suit
    · rw [if_pos hd, if_pos hd, if_pos hd]
      exact ih _
    · rw [if_neg hd, if_neg hd, if_neg hd]
      rw [ih mins]
      omega

theorem scanMins_lower (l : List Card) (σ ρ : Nat) : ∀ (mins : Nat → Nat),
    ρ < mins σ → (∀ d ∈ l, d.suit = σ → ρ < d.rank) →
    ρ < scanMins mins l σ := by
  induction l with
  | nil =>
    intro mins hm _
    unfold scanMins
    exact hm
  | cons d rest ih =>
    intro mins hm hl
    unfold scanMins
    by_cases hd : d.rank < mins d.suit
    · rw [if_pos hd]
      refine ih _ ?_ (fun e he hs => hl e (List.mem_cons_of_mem _ he) hs)
      by_cases hs : σ = d.suit
      · rw [if_pos hs]
        exact hl d (List.mem_cons_self _ _) hs.symm
      · rw [if_neg hs]
        exact hm
    · rw [if_neg hd]
      exact ih _ hm (fun e he hs => hl e (List.mem_cons_of_mem _ he) hs)

/-- Appending a card whose rank is below every earlier same-suit rank
does not change the misorder count. -/
theorem misorderCount_append_clean (l : List Card) (c : Card) (hr : c.rank < 14)
    (hcl : ∀ d ∈ l, d.suit = c.suit → c.rank < d.rank) :
    MisorderCount (l ++ [c]) = MisorderCount l := by
  unfold MisorderCount
  rw [misorderAux_append]
  rw [if_pos (scanMins_lower l c.suit c.rank (fun _ => 14) hr hcl)]
  omega

theorem ucAdd_one (u : Nat) (h : u + 1 < 256) : ucAdd u 1 = u + 1 := by
  unfold ucAdd
  omega

theorem ucAdd_nat (u v : Nat) (h : u + v < 256) : ucAdd u (v : Int) = u + v := by
  unfold ucAdd
  omega

theorem ucAdd_flip (u : Nat) : ucAdd u (1 - (u : Int)) = 1 := by
  unfold ucAdd
  omega

theorem take_succ_getD {α} [Inhabited α] (l : List α) : ∀ (k : Nat), k < l.length →
    l.take (k + 1) = l.take k ++ [l.getD k default] := by
  induction l with
  | nil =>
    intro k h
    simp at h
  | cons a t ih =>
    intro k h
    cases k with
    | zero => rfl
    | succ m =>
      have hm := ih m (by simpa using h)
      rw [show (a :: t).take (m + 1 + 1) = a :: t.take (m + 1) from rfl, hm]
      rfl

theorem drop_length_sub_one {α} [Inhabited α] (l : List α) (h : l ≠ []) :
    l.drop (l.length - 1) = [l.getLastD default] := by
  rcases List.eq_nil_or_concat l with hnil | ⟨l', b, hl⟩
  · exact absurd hnil h
  · rw [List.concat_eq_append] at hl
    subst hl
    rw [List.getLastD_concat, List.length_append]
    have h1 : l'.length + [b].length - 1 = l'.length := by simp
    rw [h1]
    exact List.drop_left l' [b]

theorem take_pos_singleton {α} (a : α) (k : Nat) (h : 1 ≤ k) : [a].take k = [a] := by
  cases k with
  | zero => omega
  | succ m =>
    rw [show List.take (m + 1) [a] = a :: List.take m ([] : List α) from rfl, List.take_nil]

theorem misorderCount_singleton (c : Card) (h : c.rank < 14) : MisorderCount [c] = 0 := by
  unfold MisorderCount misorderAux
  rw [if_pos h]
  rfl

theorem mmlFold_eq (l : List Pile) : ∀ (a : Nat),
    l.foldl (fun acc tPile =>
      if tPile.cards.length ≠ 0 then
        let downCount := tPile.cards.length - tPile.upCount
        acc + tPile.cards.length + MisorderCount (tPile.cards.take (downCount + 1))
      else acc) a = a + (l.map tableauTerm).sum := by
  induction l with
  | nil =>
    intro a
    simp
  | cons p ps ih =>
    intro a
    rw [List.foldl_cons, List.map_cons, List.sum_cons, ih]
    unfold tableauTerm
    by_cases h : p.cards.length ≠ 0
    · rw [if_pos h, if_pos h]
      simp only []
      omega
    · rw [if_neg h, if_neg h]
      omega

/-- `MinimumMovesLeft` as a sum of independent components. -/
theorem mml_eq (g : Game) :
    MinimumMovesLeft g
      = g.waste.cards.length + g.stock.cards.length
        + QuotientRoundedUp g.stock.cards.length g.drawSetting
        + (if (g.drawSetting == 1) = true then MisorderCount g.waste.cards else 0)
        + (g.tableau.map tableauTerm).sum := by
  unfold MinimumMovesLeft
  simp only []
  rw [mmlFold_eq]
  by_cases h : (g.drawSetting == 1) = true
  · rw [if_pos h, if_pos h]
    omega
  · rw [if_neg h, if_neg h]
    omega

theorem map_sum_set (l : List Pile) : ∀ (i : Nat) (p : Pile), i < l.length →
    ((l.set i p).map tableauTerm).sum + tableauTerm (l.getD i default)
      = (l.map tableauTerm).sum + tableauTerm p := by
  induction l with
  | nil =>
    intro i p h
    simp at h
  | cons q qs ih =>
    intro i p h
    cases i with
    | zero =>
      rw [show (q :: qs).set 0 p = p :: qs from rfl,
          show (q :: qs).getD 0 default = q from rfl]
      simp only [List.map_cons, List.sum_cons]
      omega
    | succ m =>
      rw [show (q :: qs).set (m + 1) p = q :: qs.set m p from rfl,
          show (q :: qs).getD (m + 1) default = qs.getD m default from rfl]
      simp only [List.map_cons, List.sum_cons]
      have hm := ih m p (by simpa using h)
      omega

theorem getPile_tab (g : Game) {j : Nat} (h1 : 1 ≤ j) (h7 : j ≤ 7) :
    g.getPile j = g.tableau.getD (j - 1) default := by
  unfold Game.getPile
  split_ifs <;> first | rfl | omega

theorem getPile_fnd (g : Game) {j : Nat} (h9 : 9 ≤ j) (h13 : j < 13) :
    g.getPile j = g.foundation.getD (j - 9) default := by
  unfold Game.getPile
  split_ifs <;> first | rfl | omega

theorem setPile_tab_set (g : Game) {j : Nat} (p : Pile) (h1 : 1 ≤ j) (h7 : j ≤ 7) :
    (g.setPile j p).tableau = g.tableau.set (j - 1) p := by
  unfold Game.setPile
  split_ifs <;> first | rfl | omega

/-- The non-dominant foundation-to-tableau move raises the bound by
exactly 1: its net effect is one more card on a tableau pile. -/
theorem heuristic_foundation_to_tableau (g : Game) (f i : Nat)
    (ht7 : g.tableau.length = 7) (hf4 : g.foundation.length = 4) (hks : g.kingSpaces < 256)
    (hi : i < 7) (hf : f < 4)
    (hne : (g.foundation.getD f default).cards ≠ [])
    (hcr : ((g.foundation.getD f default).cards.getLastD default).rank < 14)
    (hdest : (g.tableau.getD i default).cards = [] ∨
      (1 ≤ (g.tableau.getD i default).upCount ∧ (g.tableau.getD i default).upCount + 1 < 256)) :
    MinimumMovesLeft (g.makeMove (NonStockMove (9 + f) (i + 1) 1 0))
      = MinimumMovesLeft g + 1 := by
  rw [makeMove_nonstock_eq g (NonStockMove (9 + f) (i + 1) 1 0) ht7 hf4 hks
    (by simp [MoveSpec.isStockMove, NonStockMove]; omega)
    (by simp [MoveSpec.isLadderMove, NonStockMove])
    (by show 9 + f < 13; omega) (by show i + 1 < 13; omega)
    (by show 9 + f ≠ i + 1; omega)]
  rw [show (NonStockMove (9 + f) (i + 1) 1 0).nCards = 1 from by
    simp [MoveSpec.nCards, NonStockMove]]
  rw [show (NonStockMove (9 + f) (i + 1) 1 0).fromP = 9 + f from rfl]
  rw [show (NonStockMove (9 + f) (i + 1) 1 0).toP = i + 1 from rfl]
  rw [getPile_fnd g (by omega : 9 ≤ 9 + f) (by omega : 9 + f < 13)]
  rw [show 9 + f - 9 = f from by omega]
  rw [getPile_tab g (by omega : 1 ≤ i + 1) (by omega : i + 1 ≤ 7)]
  rw [show i + 1 - 1 = i from by omega]
  rw [drop_length_sub_one _ hne]
  rw [mml_eq, mml_eq]
  rw [setKingSpaces_waste, setKingSpaces_stock, setKingSpaces_tableau,
    setKingSpaces_drawSetting]
  rw [setPile_waste (by omega : 9 + f ≠ 0), setPile_waste (by omega : i + 1 ≠ 0)]
  rw [setPile_stock (by omega : 9 + f ≠ 8), setPile_stock (by omega : i + 1 ≠ 8)]
  rw [setPile_drawSetting, setPile_drawSetting]
  rw [setPile_tableau _ (9 + f) _ (by omega)]
  rw [setPile_tab_set g _ (by omega : 1 ≤ i + 1) (by omega : i + 1 ≤ 7)]
  rw [show i + 1 - 1 = i from by omega]
  have hsum := map_sum_set g.tableau i
    ⟨(g.tableau.getD i default).cards ++ [(g.foundation.getD f default).cards.getLastD default],
      ucAdd (g.tableau.getD i default).upCount 1⟩ (by omega)
  simp only [Nat.cast_one]
  have hterm : tableauTerm
      ⟨(g.tableau.getD i default).cards ++ [(g.foundation.getD f default).cards.getLastD default],
        ucAdd (g.tableau.getD i default).upCount 1⟩
      = tableauTerm (g.tableau.getD i default) + 1 := by
    by_cases hemp : (g.tableau.getD i default).cards = []
    · unfold tableauTerm
      rw [hemp]
      simp only [List.nil_append, List.length_nil, List.length_cons]
      rw [if_neg (by omega : ¬ (0 : Nat) ≠ 0), if_pos (by omega : (0 + 1 : Nat) ≠ 0)]
      rw [take_pos_singleton _ _ (by omega)]
      rw [misorderCount_singleton _ hcr]
    · have hup := hdest.resolve_left hemp
      have hL : (g.tableau.getD i default).cards.length ≠ 0 :=
        fun h0 => hemp (List.length_eq_zero.mp h0)
      unfold tableauTerm
      rw [if_pos hL]
      rw [List.length_append]
      simp only [List.length_cons, List.length_nil]
      rw [if_pos (by omega)]
      rw [ucAdd_one _ hup.2]
      have hidx : (g.tableau.getD i default).cards.length + (0 + 1)
            - ((g.tableau.getD i default).upCount + 1) + 1
          = (g.tableau.getD i default).cards.length
            - (g.tableau.getD i default).upCount + 1 := by omega
      rw [hidx]
      rw [List.take_append_of_le_length (by omega : (g.tableau.getD i default).cards.length
        - (g.tableau.getD i default).upCount + 1 ≤ (g.tableau.getD i default).cards.length)]
      omega
  omega

theorem take_one_getD {α} [Inhabited α] (l : List α) (h : l ≠ []) :
    l.take 1 = [l.getD 0 default] := by
  have h0 : 0 < l.length := by
    cases l with
    | nil => exact absurd rfl h
    | cons a t => simp
  simpa using take_succ_getD l 0 h0

theorem misorder_take_one (l : List Card) (h : l ≠ [])
    (hr : ∀ d ∈ l, d.rank < 14) : MisorderCount (l.take 1) = 0 := by
  cases l with
  | nil => exact absurd rfl h
  | cons a t =>
    rw [show (a :: t).take 1 = [a] from rfl]
    exact misorderCount_singleton _ (hr a (List.mem_cons_self a t))

/-- The whole-face-up-run tableau-to-tableau move lowers the bound by
at most 1 (the possible misorder contribution of the newly exposed
card). -/
theorem heuristic_tableau_run (g : Game) (fi ti : Nat) (b : Bool)
    (ht7 : g.tableau.length = 7) (hf4 : g.foundation.length = 4) (hks : g.kingSpaces < 256)
    (hfi : fi < 7) (hti : ti < 7) (hne : fi ≠ ti)
    (hup1 : 1 ≤ (g.tableau.getD fi default).upCount)
    (hupL : (g.tableau.getD fi default).upCount ≤ (g.tableau.getD fi default).cards.length)
    (hu256 : (g.tableau.getD fi default).upCount < 256)
    (hranks : ∀ d ∈ (g.tableau.getD fi default).cards, d.rank < 14)
    (hcase : (g.tableau.getD fi default).upCount = (g.tableau.getD fi default).cards.length
      ∨ (b = true ∧
        (g.tableau.getD fi default).upCount < (g.tableau.getD fi default).cards.length))
    (hdest : g.tableau.getD ti default = ⟨[], 0⟩ ∨
      (1 ≤ (g.tableau.getD ti default).upCount ∧
        (g.tableau.getD ti default).upCount + (g.tableau.getD fi default).upCount < 256)) :
    MinimumMovesLeft g
      ≤ ({ NonStockMove (fi + 1) (ti + 1) (g.tableau.getD fi default).upCount
            (g.tableau.getD fi default).upCount with flipsTopCard := b } : MoveSpec).nMoves
        + MinimumMovesLeft (g.makeMove
            { NonStockMove (fi + 1) (ti + 1) (g.tableau.getD fi default).upCount
              (g.tableau.getD fi default).upCount with flipsTopCard := b }) := by
  have hbound : (g.tableau.getD ti default).upCount
      + (g.tableau.getD fi default).upCount < 256 := by
    rcases hdest with hp | hp
    · rw [hp]
      simpa using hu256
    · exact hp.2
  rw [makeMove_nonstock_eq g _ ht7 hf4 hks
    (by simp [MoveSpec.isStockMove, NonStockMove]; omega)
    (by simp [MoveSpec.isLadderMove, NonStockMove])
    (by show fi + 1 < 13; omega) (by show ti + 1 < 13; omega)
    (by show fi + 1 ≠ ti + 1; omega)]
  rw [show ({ NonStockMove (fi + 1) (ti + 1) (g.tableau.getD fi default).upCount
      (g.tableau.getD fi default).upCount with flipsTopCard := b } : MoveSpec).nCards
      = (g.tableau.getD fi default).upCount from by
    unfold MoveSpec.nCards
    rw [if_neg (by simp [NonStockMove]; omega)]
    rfl]
  rw [show ({ NonStockMove (fi + 1) (ti + 1) (g.tableau.getD fi default).upCount
      (g.tableau.getD fi default).upCount with flipsTopCard := b } : MoveSpec).nMoves
      = 1 from rfl]
  rw [show ({ NonStockMove (fi + 1) (ti + 1) (g.tableau.getD fi default).upCount
      (g.tableau.getD fi default).upCount with flipsTopCard := b } : MoveSpec).fromP
      = fi + 1 from rfl]
  rw [show ({ NonStockMove (fi + 1) (ti + 1) (g.tableau.getD fi default).upCount
      (g.tableau.getD fi default).upCount with flipsTopCard := b } : MoveSpec).toP
      = ti + 1 from rfl]
  rw [show ({ NonStockMove (fi + 1) (ti + 1) (g.tableau.getD fi default).upCount
      (g.tableau.getD fi default).upCount with flipsTopCard := b } : MoveSpec).flipsTopCard
      = b from rfl]
  rw [getPile_tab g (by omega : 1 ≤ fi + 1) (by omega : fi + 1 ≤ 7)]
  rw [show fi + 1 - 1 = fi from by omega]
  rw [getPile_tab g (by omega : 1 ≤ ti + 1) (by omega : ti + 1 ≤ 7)]
  rw [show ti + 1 - 1 = ti from by omega]
  rw [mml_eq, mml_eq]
  rw [setKingSpaces_waste, setKingSpaces_stock, setKingSpaces_tableau,
    setKingSpaces_drawSetting]
  rw [setPile_waste (by omega : fi + 1 ≠ 0), setPile_waste (by omega : ti + 1 ≠ 0)]
  rw [setPile_stock (by omega : fi + 1 ≠ 8), setPile_stock (by omega : ti + 1 ≠ 8)]
  rw [setPile_drawSetting, setPile_drawSetting]
  rw [setPile_tab_set _ _ (by omega : 1 ≤ fi + 1) (by omega : fi + 1 ≤ 7)]
  rw [show fi + 1 - 1 = fi from by omega]
  rw [setPile_tab_set g _ (by omega : 1 ≤ ti + 1) (by omega : ti + 1 ≤ 7)]
  rw [show ti + 1 - 1 = ti from by omega]
  have hmv : ((g.tableau.getD fi default).cards.drop
      ((g.tableau.getD fi default).cards.length
        - (g.tableau.getD fi default).upCount)).length
      = (g.tableau.getD fi default).upCount := by
    rw [List.length_drop]
    omega
  have hmvne : (g.tableau.getD fi default).cards.drop
      ((g.tableau.getD fi default).cards.length
        - (g.tableau.getD fi default).upCount) ≠ [] := by
    intro hcn
    rw [hcn] at hmv
    simp only [List.length_nil] at hmv
    omega
  have hmis0 : MisorderCount (((g.tableau.getD fi default).cards.drop
      ((g.tableau.getD fi default).cards.length
        - (g.tableau.getD fi default).upCount)).take 1) = 0 := by
    refine misorder_take_one _ hmvne ?_
    intro d hd
    exact hranks d (List.mem_of_mem_drop hd)
  have htermA : tableauTerm
      ⟨(g.tableau.getD ti default).cards ++
          (g.tableau.getD fi default).cards.drop
            ((g.tableau.getD fi default).cards.length
              - (g.tableau.getD fi default).upCount),
        ucAdd (g.tableau.getD ti default).upCount
          ((g.tableau.getD fi default).upCount : Int)⟩
      = tableauTerm (g.tableau.getD ti default)
        + (g.tableau.getD fi default).upCount := by
    rw [show tableauTerm
        ⟨(g.tableau.getD ti default).cards ++
            (g.tableau.getD fi default).cards.drop
              ((g.tableau.getD fi default).cards.length
                - (g.tableau.getD fi default).upCount),
          ucAdd (g.tableau.getD ti default).upCount
            ((g.tableau.getD fi default).upCount : Int)⟩
        = tableauTerm
        ⟨(g.tableau.getD ti default).cards ++
            (g.tableau.getD fi default).cards.drop
              ((g.tableau.getD fi default).cards.length
                - (g.tableau.getD fi default).upCount),
          (g.tableau.getD ti default).upCount + (g.tableau.getD fi default).upCount⟩
        from by rw [ucAdd_nat _ _ hbound]]
    by_cases hdc : (g.tableau.getD ti default).cards = []
    · unfold tableauTerm
      rw [hdc, List.nil_append]
      rw [if_neg (by simp : ¬ ([] : List Card).length ≠ 0)]
      rw [if_pos (by rw [hmv]; omega)]
      rw [hmv]
      rw [show (g.tableau.getD fi default).upCount
          - ((g.tableau.getD ti default).upCount + (g.tableau.getD fi default).upCount) + 1
          = 1 from by omega]
      rw [hmis0]
      omega
    · have hdL : (g.tableau.getD ti default).cards.length ≠ 0 :=
        fun h0 => hdc (List.length_eq_zero.mp h0)
      have hdti : 1 ≤ (g.tableau.getD ti default).upCount := by
        rcases hdest with hp | hp
        · exact absurd (congrArg Pile.cards hp) hdc
        · exact hp.1
      unfold tableauTerm
      rw [if_pos hdL]
      rw [List.length_append, hmv]
      rw [if_pos (by omega)]
      rw [show (g.tableau.getD ti default).cards.length
            + (g.tableau.getD fi default).upCount
            - ((g.tableau.getD ti default).upCount + (g.tableau.getD fi default).upCount) + 1
          = (g.tableau.getD ti default).cards.length
            - (g.tableau.getD ti default).upCount + 1 from by omega]
      rw [List.take_append_of_le_length
        (by omega : (g.tableau.getD ti default).cards.length
          - (g.tableau.getD ti default).upCount + 1
            ≤ (g.tableau.getD ti default).cards.length)]
      omega
  have hpL : (g.tableau.getD fi default).cards.length ≠ 0 := by omega
  have hpne : (g.tableau.getD fi default).cards ≠ [] := by
    intro h0
    rw [h0] at hpL
    exact hpL rfl
  have htermFi : tableauTerm (g.tableau.getD fi default)
      ≤ (g.tableau.getD fi default).upCount
        + tableauTerm
            ⟨(g.tableau.getD fi default).cards.take
                ((g.tableau.getD fi default).cards.length
                  - (g.tableau.getD fi default).upCount),
              if (g.tableau.getD fi default).cards.length
                  - (g.tableau.getD fi default).upCount = 0 then 0
              else ucAdd (g.tableau.getD fi default).upCount
                ((if b = true then 1 else 0)
                  - ((g.tableau.getD fi default).upCount : Int))⟩
        + 1 := by
    rcases hcase with hfull | ⟨hb, hlt⟩
    · have hz : (g.tableau.getD fi default).cards.length
          - (g.tableau.getD fi default).upCount = 0 := by omega
      rw [hz]
      unfold tableauTerm
      rw [if_pos hpL]
      simp only [List.take_zero, List.length_nil]
      rw [if_neg (by omega : ¬ (0 : Nat) ≠ 0)]
      rw [show (g.tableau.getD fi default).cards.length
          - (g.tableau.getD fi default).upCount + 1 = 1 from by omega]
      rw [misorder_take_one _ hpne hranks]
      omega
    · have hz : ¬ ((g.tableau.getD fi default).cards.length
          - (g.tableau.getD fi default).upCount = 0) := by omega
      rw [if_neg hz, hb]
      rw [if_pos rfl]
      rw [ucAdd_flip]
      unfold tableauTerm
      rw [if_pos hpL]
      rw [List.length_take]
      rw [show ((g.tableau.getD fi default).cards.length
            - (g.tableau.getD fi default).upCount)
            ⊓ (g.tableau.getD fi default).cards.length
          = (g.tableau.getD fi default).cards.length
            - (g.tableau.getD fi default).upCount from by omega]
      rw [if_pos hz]
      rw [show (g.tableau.getD fi default).cards.length
            - (g.tableau.getD fi default).upCount - 1 + 1
          = (g.tableau.getD fi default).cards.length
            - (g.tableau.getD fi default).upCount from by omega]
      rw [List.take_take]
      rw [show ((g.tableau.getD fi default).cards.length
            - (g.tableau.getD fi default).upCount)
            ⊓ ((g.tableau.getD fi default).cards.length
            - (g.tableau.getD fi default).upCount)
          = (g.tableau.getD fi default).cards.length
            - (g.tableau.getD fi default).upCount from by omega]
      have hsplit := take_succ_getD (g.tableau.getD fi default).cards
        ((g.tableau.getD fi default).cards.length
          - (g.tableau.getD fi default).upCount) (by omega)
      have happ := misorderAux_append ((g.tableau.getD fi default).cards.take
        ((g.tableau.getD fi default).cards.length
          - (g.tableau.getD fi default).upCount))
        ((g.tableau.getD fi default).cards.getD
          ((g.tableau.getD fi default).cards.length
            - (g.tableau.getD fi default).upCount) default) (fun _ => 14)
      unfold MisorderCount
      rw [hsplit, happ]
      have hite : (if ((g.tableau.getD fi default).cards.getD
            ((g.tableau.getD fi default).cards.length
              - (g.tableau.getD fi default).upCount) default).rank
          < scanMins (fun _ => 14) ((g.tableau.getD fi default).cards.take
            ((g.tableau.getD fi default).cards.length
              - (g.tableau.getD fi default).upCount))
            ((g.tableau.getD fi default).cards.getD
              ((g.tableau.getD fi default).cards.length
                - (g.tableau.getD fi default).upCount) default).suit
          then 0 else 1) ≤ 1 := by
        split_ifs <;> omega
      omega
  have hsum1 := map_sum_set g.tableau ti
    ⟨(g.tableau.getD ti default).cards ++
        (g.tableau.getD fi default).cards.drop
          ((g.tableau.getD fi default).cards.length
            - (g.tableau.getD fi default).upCount),
      ucAdd (g.tableau.getD ti default).upCount
        ((g.tableau.getD fi default).upCount : Int)⟩ (by omega)
  have hsum2 := map_sum_set (g.tableau.set ti
    ⟨(g.tableau.getD ti default).cards ++
        (g.tableau.getD fi default).cards.drop
          ((g.tableau.getD fi default).cards.length
            - (g.tableau.getD fi default).upCount),
      ucAdd (g.tableau.getD ti default).upCount
        ((g.tableau.getD fi default).upCount : Int)⟩) fi
    ⟨(g.tableau.getD fi default).cards.take
        ((g.tableau.getD fi default).cards.length
          - (g.tableau.getD fi default).upCount),
      if (g.tableau.getD fi default).cards.length
          - (g.tableau.getD fi default).upCount = 0 then 0
      else ucAdd (g.tableau.getD fi default).upCount
        ((if b = true then 1 else 0)
          - ((g.tableau.getD fi default).upCount : Int))⟩
    (by rw [length_set_eq]; omega)
  rw [getD_set_ne _ _ default (Ne.symm hne)] at hsum2
  omega

set_option maxRecDepth 8000 in
/-- C2 (counterexample): with a deck holding two aces of clubs, the
state `sC2` (reachable by one legal talon move from the deal) has both
club aces in its waste; `AvailableMoves` generates exactly the 1-move
play of the top ace to the foundation, yet `MinimumMovesLeft` drops by
2: the heuristic is not consistent, and the worker assertion
`minMoves0 <= made + heuristic` would fail. -/
theorem C2_consistency_counterexample :
    Game.ReachableFrom gameC2 sC2 ∧
    (sC2.availableMoves [] []).1 = [mvC2] ∧
    MinimumMovesLeft sC2 = mvC2.nMoves + MinimumMovesLeft (sC2.makeMove mvC2) + 1 := by
  refine ⟨?_, by decide, by decide⟩
  exact Game.ReachableFrom.step gameC2 mv1C2 Game.ReachableFrom.base (by decide)

/-- The generated waste-to-foundation move decreases `MinimumMovesLeft`
by exactly its `NMoves() = 1` whenever no same-suit card of rank at
most the played card's lies below it in the waste -- the condition
that holds in every position of a standard 52-distinct-card game by
foundation canonicity, and whose failure (possible only with repeated
cards) breaks the consistency assertion. -/
theorem heuristic_waste_to_foundation (g : Game) (c : Card)
    (ht7 : g.tableau.length = 7) (hf4 : g.foundation.length = 4)
    (hks : g.kingSpaces < 256)
    (hc : g.waste.cards.getLastD default = c)
    (hne : g.waste.cards ≠ [])
    (hs4 : c.suit < 4) (hr : c.rank < 14)
    (hclean : ∀ d ∈ g.waste.cards.dropLast, d.suit = c.suit → c.rank < d.rank) :
    MinimumMovesLeft g
      = (NonStockMove 0 (9 + c.suit) 1 0).nMoves
        + MinimumMovesLeft (g.makeMove (NonStockMove 0 (9 + c.suit) 1 0)) := by
  have hsplit : g.waste.cards = g.waste.cards.dropLast ++ [c] := by
    rw [← hc]
    exact (dropLast_append_getLastD hne).symm
  have hmis : MisorderCount g.waste.cards = MisorderCount g.waste.cards.dropLast := by
    conv_lhs => rw [hsplit]
    exact misorderCount_append_clean _ c hr hclean
  have hlen1 : 1 ≤ g.waste.cards.length := by
    cases hw : g.waste.cards with
    | nil => exact absurd hw hne
    | cons a l => simp [hw]
  rw [makeMove_nonstock_eq g (NonStockMove 0 (9 + c.suit) 1 0) ht7 hf4 hks (by rfl) (by rfl)
    (by show (0 : Nat) < 13; omega) (by show 9 + c.suit < 13; omega)
    (by show (0 : Nat) ≠ 9 + c.suit; omega)]
  rw [show (NonStockMove 0 (9 + c.suit) 1 0).nCards = 1 from rfl]
  rw [show (NonStockMove 0 (9 + c.suit) 1 0).nMoves = 1 from rfl]
  rw [show (NonStockMove 0 (9 + c.suit) 1 0).fromP = 0 from rfl]
  rw [show (NonStockMove 0 (9 + c.suit) 1 0).toP = 9 + c.suit from rfl]
  rw [show (NonStockMove 0 (9 + c.suit) 1 0).flipsTopCard = false from rfl]
  unfold MinimumMovesLeft
  simp only [setKingSpaces_drawSetting, setPile_drawSetting, setKingSpaces_tableau,
    setKingSpaces_waste, setKingSpaces_stock]
  rw [setPile_tableau _ 0 _ (by omega), setPile_tableau _ (9 + c.suit) _ (by omega)]
  rw [setPile_zero_waste]
  rw [setPile_stock (by omega : (0 : Nat) ≠ 8), setPile_stock (by omega : 9 + c.suit ≠ 8)]
  simp only []
  rw [show (g.getPile 0).cards = g.waste.cards from rfl]
  have htake : g.waste.cards.take (g.waste.cards.length - 1) = g.waste.cards.dropLast := by
    rw [List.dropLast_eq_take]
  rw [htake]
  have hlend : g.waste.cards.dropLast.length = g.waste.cards.length - 1 := by
    rw [List.length_dropLast]
  rw [hlend, hmis]
  by_cases hdr : (g.drawSetting == 1) = true
  · rw [if_pos hdr, if_pos hdr]
    omega
  · rw [if_neg hdr, if_neg hdr]
    omega

/-- C2 (amended): `MinimumMovesLeft` is not consistent in general (see
the counterexample), but its change under a single move obeys exact
per-class accounting: (1) the generated waste-to-foundation play
decreases the bound by exactly its `NMoves() = 1` whenever no
same-suit card of rank at most the played card's lies below it in the
waste -- true in every position of a standard deck of 52 distinct
cards by foundation canonicity; (2) a foundation-to-tableau move
raises the bound by exactly 1; (3) moving a whole face-up run of
all-real-rank cards between tableau piles lowers the bound by at most
its `NMoves() = 1`. -/
theorem C2_heuristic_amended :
    (∀ (g : Game) (c : Card),
      g.tableau.length = 7 → g.foundation.length = 4 →
      g.kingSpaces < 256 →
      g.waste.cards.getLastD default = c → g.waste.cards ≠ [] →
      c.suit < 4 → c.rank < 14 →
      (∀ d ∈ g.waste.cards.dropLast, d.suit = c.suit → c.rank < d.rank) →
      MinimumMovesLeft g
        = (NonStockMove 0 (9 + c.suit) 1 0).nMoves
          + MinimumMovesLeft (g.makeMove (NonStockMove 0 (9 + c.suit) 1 0))) ∧
    (∀ (g : Game) (f i : Nat),
      g.tableau.length = 7 → g.foundation.length = 4 →
      g.kingSpaces < 256 → i < 7 → f < 4 →
      (g.foundation.getD f default).cards ≠ [] →
      ((g.foundation.getD f default).cards.getLastD default).rank < 14 →
      ((g.tableau.getD i default).cards = [] ∨
        (1 ≤ (g.tableau.getD i default).upCount ∧
          (g.tableau.getD i default).upCount + 1 < 256)) →
      MinimumMovesLeft (g.makeMove (NonStockMove (9 + f) (i + 1) 1 0))
        = MinimumMovesLeft g + 1) ∧
    (∀ (g : Game) (fi ti : Nat) (b : Bool),
      g.tableau.length = 7 → g.foundation.length = 4 →
      g.kingSpaces < 256 → fi < 7 → ti < 7 → fi ≠ ti →
      1 ≤ (g.tableau.getD fi default).upCount →
      (g.tableau.getD fi default).upCount ≤ (g.tableau.getD fi default).cards.length →
      (g.tableau.getD fi default).upCount < 256 →
      (∀ d ∈ (g.tableau.getD fi default).cards, d.rank < 14) →
      ((g.tableau.getD fi default).upCount = (g.tableau.getD fi default).cards.length
        ∨ (b = true ∧
          (g.tableau.getD fi default).upCount < (g.tableau.getD fi default).cards.length)) →
      (g.tableau.getD ti default = ⟨[], 0⟩ ∨
        (1 ≤ (g.tableau.getD ti default).upCount ∧
          (g.tableau.getD ti default).upCount + (g.tableau.getD fi default).upCount < 256)) →
      MinimumMovesLeft g
        ≤ ({ NonStockMove (fi + 1) (ti + 1) (g.tableau.getD fi default).upCount
              (g.tableau.getD fi default).upCount with flipsTopCard := b } : MoveSpec).nMoves
          + MinimumMovesLeft (g.makeMove
              { NonStockMove (fi + 1) (ti + 1) (g.tableau.getD fi default).upCount
                (g.tableau.getD fi default).upCount with flipsTopCard := b })) :=
  ⟨heuristic_waste_to_foundation, heuristic_foundation_to_tableau, heuristic_tableau_run⟩

/-- C2 (witness): the waste-to-foundation component of the amended
accounting, instantiated at a concrete clean state. -/
theorem C2_heuristic_amended_witness :
    gClean.waste.cards.getLastD default = (⟨0, 0⟩ : Card) ∧
    MinimumMovesLeft gClean
      = (NonStockMove 0 9 1 0).nMoves
        + MinimumMovesLeft (gClean.makeMove (NonStockMove 0 9 1 0)) := by
  refine ⟨by decide, ?_⟩
  have h := C2_heuristic_amended.1 gClean ⟨0, 0⟩ (by decide) (by decide) (by decide) (by decide)
    (by decide) (by decide) (by decide) (by decide)
  exact h

/-- C6 (counterexample): the ace of diamonds covers the two of clubs
(`Card.covers` is true), yet the two cards have EQUAL `oddRed` parity
bits, so the claim's condition "opposite parity" is false for a pair
that the code accepts. -/
theorem C6_covers_counterexample :
    Card.covers ⟨1, 0⟩ ⟨0, 1⟩ = true ∧
    Card.oddRed ⟨1, 0⟩ = Card.oddRed ⟨0, 1⟩ ∧
    coversClaimC6 ⟨1, 0⟩ ⟨0, 1⟩ = false := by decide

/-- C6 (amended): `Card.covers a c` holds iff `a`'s rank is one less
than `c`'s rank and the parity bits `oddRed` of `a` and `c` are EQUAL
(which, given the rank difference, is the alternating-colour rule). -/
theorem C6_covers_iff (a c : Card) :
    Card.covers a c = true ↔ (a.rank + 1 = c.rank ∧ a.oddRed = c.oddRed) := by
  simp [Card.covers]

/-- C7: the outcome code is exactly `SolvedMinimal` when a solution was
found and the move tree did not exceed its size limit, `Solved` when a
solution was found and the limit was exceeded, `Impossible` when no
solution was found and the limit was not exceeded, and `GaveUp` when no
solution was found and the limit was exceeded. -/
theorem C7_outcome_classification (sol tree limit : Nat) :
    (solverOutcome sol tree limit = .SolvedMinimal ↔ sol ≠ 0 ∧ ¬ tree > limit) ∧
    (solverOutcome sol tree limit = .Solved ↔ sol ≠ 0 ∧ tree > limit) ∧
    (solverOutcome sol tree limit = .Impossible ↔ sol = 0 ∧ ¬ tree > limit) ∧
    (solverOutcome sol tree limit = .GaveUp ↔ sol = 0 ∧ tree > limit) := by
  unfold solverOutcome overLimit
  by_cases h : sol = 0 <;> by_cases h2 : limit < tree <;> simp [h, h2]

end KSolveNames
